import Mathlib

/-!
Verification development for the project-management knowledge-graph engine
(file project_index.ts of the repository under study).

The TypeScript engine is shallowly embedded: every JavaScript value that the
claims touch is translated to a Lean value (strings stay strings, JS numbers
become exact rationals, JS "undefined"/"null" become Option, thrown
exceptions become Except.error / Option.none), and every engine operation
becomes a pure Lean function on an explicit KnowledgeGraph state.  Each
operation in the source loads the persisted graph, works on it and saves it
back; the embedding threads that graph explicitly instead.

Conventions used throughout:
- JS string comparison "===" is String equality.  String.prototype
  operations (toLowerCase, trim, split, startsWith, includes) are modelled
  by structurally recursive functions over the character list of the
  string, so that the kernel can evaluate them on concrete inputs; the
  data of interest is ASCII, where they agree with the JS operations.
- Array.prototype.sort is stable in modern engines (ECMA-262, 2019 on), so
  every .sort(cmp) is modelled by the stable merge sort jsSort with the
  ordering "cmp a b <= 0"; a comparator that evaluates to NaN is treated by
  the JS spec as 0, which the corresponding Lean orderings reproduce.
- Math.round on the (finite rational) values of interest is floor (x + 1/2).
- Calls to new Date(...).getTime() are modelled by an explicit oracle
  parameter parseTime : String -> Option Rat (none standing for NaN, i.e.
  an invalid date) plus an explicit current instant where needed.
-/

/-- Entities of the knowledge graph, mirroring the TypeScript interface
Entity with fields name, entityType, observations and the optional
embedding. -/
structure Entity where
  name : String
  entityType : String
  observations : List String
  embedding : Option (List Rat) := none
deriving DecidableEq, Repr

/-- Relations of the knowledge graph, mirroring the TypeScript interface
Relation.  The source field names "from" and "to" are Lean keywords-adjacent
and are rendered from_ and to_. -/
structure Relation where
  from_ : String
  to_ : String
  relationType : String
  observations : Option (List String) := none
deriving DecidableEq, Repr

/-- The persisted state: entities plus relations, as in interface
KnowledgeGraph. -/
structure KnowledgeGraph where
  entities : List Entity
  relations : List Relation
deriving DecidableEq, Repr

/-- The closed list validEntityTypes of the source. -/
def validEntityTypes : List String :=
  ["project", "task", "milestone", "resource", "teamMember", "note",
   "document", "issue", "risk", "decision", "dependency", "component",
   "stakeholder", "change", "status", "priority"]

/-- The closed list VALID_RELATION_TYPES of the source. -/
def VALID_RELATION_TYPES : List String :=
  ["part_of", "depends_on", "assigned_to", "created_by", "modified_by",
   "related_to", "blocks", "manages", "contributes_to", "documents",
   "scheduled_for", "responsible_for", "reports_to", "categorized_as",
   "required_for", "discovered_in", "resolved_by", "impacted_by",
   "stakeholder_of", "prioritized_as", "has_status", "has_priority",
   "precedes"]

/-- VALID_STATUS_VALUES of the source. -/
def VALID_STATUS_VALUES : List String :=
  ["active", "completed", "pending", "blocked", "cancelled"]

/-- VALID_PRIORITY_VALUES of the source. -/
def VALID_PRIORITY_VALUES : List String :=
  ["high", "low"]

/-- JS String.prototype.split(':') (and its limit-2 variant, which agrees
on element [1]): split the character list at each separator occurrence. -/
def jsSplitChars (sep : Char) : List Char → List (List Char)
  | [] => [[]]
  | c :: rest =>
    if c == sep then [] :: jsSplitChars sep rest
    else
      match jsSplitChars sep rest with
      | h :: t => (c :: h) :: t
      | [] => [[c]]

/-- split(':') on strings. -/
def jsSplitColon (s : String) : List String :=
  (jsSplitChars ':' s.data).map (fun cs => String.mk cs)

/-- JS String.prototype.trim, over the character list. -/
def jsTrim (s : String) : String :=
  String.mk
    (((s.data.dropWhile Char.isWhitespace).reverse.dropWhile
      Char.isWhitespace).reverse)

/-- JS String.prototype.startsWith, over the character lists. -/
def jsStartsWith (s pre : String) : Bool :=
  pre.data.isPrefixOf s.data

/-- JS String.prototype.toLowerCase (ASCII), over the character list. -/
def jsToLower (s : String) : String :=
  String.mk (s.data.map Char.toLower)

/-- Merging two runs, with fuel making the recursion structural so the
kernel can evaluate it; the fuel passed by jsSort can never run out.  When
le x y the left element goes first, which together with the left-half-first
split below makes the sort stable. -/
def mergeFuel {α : Type} (le : α → α → Bool) : Nat → List α → List α → List α
  | 0, xs, ys => xs ++ ys
  | _ + 1, [], ys => ys
  | _ + 1, x :: xs, [] => x :: xs
  | f + 1, x :: xs, y :: ys =>
    if le x y then x :: mergeFuel le f xs (y :: ys)
    else y :: mergeFuel le f (x :: xs) ys

/-- Top-down stable merge sort with structural fuel (the list length
suffices, as each half is strictly shorter).  Models the stable
Array.prototype.sort of ECMA-262 (2019 on) with the ordering
"comparator nonpositive or NaN". -/
def mergeSortFuel {α : Type} (le : α → α → Bool) : Nat → List α → List α
  | 0, l => l
  | f + 1, l =>
    if l.length ≤ 1 then l
    else
      mergeFuel le (l.length + l.length)
        (mergeSortFuel le f (l.take (l.length / 2)))
        (mergeSortFuel le f (l.drop (l.length / 2)))

/-- The stable sort used for every Array.prototype.sort call of the
source. -/
def jsSort {α : Type} (le : α → α → Bool) (l : List α) : List α :=
  mergeSortFuel le l.length l

/-- Membership is preserved by mergeFuel. -/
theorem mem_mergeFuel {α : Type} (le : α → α → Bool) :
    ∀ f xs ys (a : α), a ∈ mergeFuel le f xs ys ↔ a ∈ xs ∨ a ∈ ys := by
  intro f
  induction f with
  | zero => intro xs ys a; simp [mergeFuel]
  | succ f ih =>
    intro xs ys a
    match xs, ys with
    | [], ys => simp [mergeFuel]
    | x :: xs, [] => simp [mergeFuel]
    | x :: xs, y :: ys =>
      rw [mergeFuel]
      split
      · simp only [List.mem_cons, ih]
        tauto
      · simp only [List.mem_cons, ih]
        tauto

/-- Membership is preserved by the fuelled merge sort. -/
theorem mem_mergeSortFuel {α : Type} (le : α → α → Bool) :
    ∀ f l (a : α), a ∈ mergeSortFuel le f l ↔ a ∈ l := by
  intro f
  induction f with
  | zero => intro l a; rfl
  | succ f ih =>
    intro l a
    rw [mergeSortFuel]
    split
    · rfl
    · rw [mem_mergeFuel, ih, ih]
      conv_rhs => rw [← List.take_append_drop (l.length / 2) l]
      rw [List.mem_append]

/-- Membership is preserved by jsSort. -/
theorem mem_jsSort {α : Type} (le : α → α → Bool) (l : List α) (a : α) :
    a ∈ jsSort le l ↔ a ∈ l :=
  mem_mergeSortFuel le l.length l a

/-- The validation loop of createEntities: for each entity, first the
duplicate-name check against the entities already in the loaded graph, then
validateEntityType; the first failing entity raises.  Note the check is
against the graph as loaded, not against the earlier entities of the same
batch. -/
def validateNewEntities (g : KnowledgeGraph) : List Entity → Except String Unit
  | [] => .ok ()
  | e :: rest =>
    if g.entities.any (fun x => x.name == e.name) then
      .error ("Entity with name " ++ e.name ++ " already exists")
    else if !(validEntityTypes.contains e.entityType) then
      .error ("Invalid entity type: " ++ e.entityType)
    else validateNewEntities g rest

/-- createEntities: validate the whole batch, then append it and persist. -/
def createEntities (g : KnowledgeGraph) (entities : List Entity) :
    Except String KnowledgeGraph :=
  match validateNewEntities g entities with
  | .error m => .error m
  | .ok _ => .ok { g with entities := g.entities ++ entities }

/-- The validation loop of createRelations: per relation, existence of the
from entity, existence of the to entity, membership of the relation type in
VALID_RELATION_TYPES, and absence of the exact (from, to, relationType)
triple among the relations already in the loaded graph. -/
def validateNewRelations (g : KnowledgeGraph) : List Relation → Except String Unit
  | [] => .ok ()
  | r :: rest =>
    if !(g.entities.any (fun e => e.name == r.from_)) then
      .error ("Entity '" ++ r.from_ ++ "' not found")
    else if !(g.entities.any (fun e => e.name == r.to_)) then
      .error ("Entity '" ++ r.to_ ++ "' not found")
    else if !(VALID_RELATION_TYPES.contains r.relationType) then
      .error ("Invalid relation type: " ++ r.relationType)
    else if g.relations.any (fun r0 =>
        r0.from_ == r.from_ && r0.to_ == r.to_ &&
        r0.relationType == r.relationType) then
      .error ("Relation from '" ++ r.from_ ++ "' to '" ++ r.to_ ++
        "' with type '" ++ r.relationType ++ "' already exists")
    else validateNewRelations g rest

/-- createRelations: validate the whole batch before touching the graph,
then append all relations and persist.  An error on any item therefore
leaves the loaded graph unsaved and unchanged. -/
def createRelations (g : KnowledgeGraph) (relations : List Relation) :
    Except String KnowledgeGraph :=
  match validateNewRelations g relations with
  | .error m => .error m
  | .ok _ => .ok { g with relations := g.relations ++ relations }

/-- setEntityStatus: validate the value, drop every existing has_status
relation whose from is the subject, then push the new relation to the
synthetic status entity.  No existence check is made on either endpoint. -/
def setEntityStatus (g : KnowledgeGraph) (entityName statusValue : String) :
    Except String KnowledgeGraph :=
  if !(VALID_STATUS_VALUES.contains statusValue) then
    .error ("Invalid status value: " ++ statusValue)
  else
    .ok { g with relations :=
      (g.relations.filter (fun r =>
        !(r.from_ == entityName && r.relationType == "has_status"))) ++
      [{ from_ := entityName, to_ := "status:" ++ statusValue,
         relationType := "has_status" }] }

/-- setEntityPriority: the priority analogue of setEntityStatus. -/
def setEntityPriority (g : KnowledgeGraph) (entityName priorityValue : String) :
    Except String KnowledgeGraph :=
  if !(VALID_PRIORITY_VALUES.contains priorityValue) then
    .error ("Invalid priority value: " ++ priorityValue)
  else
    .ok { g with relations :=
      (g.relations.filter (fun r =>
        !(r.from_ == entityName && r.relationType == "has_priority"))) ++
      [{ from_ := entityName, to_ := "priority:" ++ priorityValue,
         relationType := "has_priority" }] }

/-- getEntityStatus: the first has_status relation from the subject, with
the value read out of the target name by split(':')[1]; JS yields undefined
(here none) when there is no relation or no second segment. -/
def getEntityStatus (g : KnowledgeGraph) (entityName : String) : Option String :=
  match g.relations.find? (fun r =>
      r.from_ == entityName && r.relationType == "has_status") with
  | some r => (jsSplitColon r.to_).get? 1
  | none => none

/-- getEntityPriority: the priority analogue of getEntityStatus. -/
def getEntityPriority (g : KnowledgeGraph) (entityName : String) : Option String :=
  match g.relations.find? (fun r =>
      r.from_ == entityName && r.relationType == "has_priority") with
  | some r => (jsSplitColon r.to_).get? 1
  | none => none

/-- Substring test on character lists: JS String.prototype.includes. -/
def charsInfix (needle : List Char) : List Char → Bool
  | [] => needle.isEmpty
  | c :: rest => needle.isPrefixOf (c :: rest) || charsInfix needle rest

/-- jsIncludes hay needle models hay.includes(needle). -/
def jsIncludes (hay needle : String) : Bool :=
  charsInfix needle.data hay.data

/-- The entity predicate of searchNodes: name, entityType or any observation
contains the lower-cased query. -/
def entityMatches (lowerQuery : String) (e : Entity) : Bool :=
  jsIncludes (jsToLower e.name) lowerQuery ||
  jsIncludes (jsToLower e.entityType) lowerQuery ||
  e.observations.any (fun o => jsIncludes (jsToLower o) lowerQuery)

/-- The additional-relation predicate of searchNodes: relation type or some
relation observation contains the lower-cased query. -/
def relationMatches (lowerQuery : String) (r : Relation) : Bool :=
  jsIncludes (jsToLower r.relationType) lowerQuery ||
  (match r.observations with
   | some obs => obs.any (fun o => jsIncludes (jsToLower o) lowerQuery)
   | none => false)

/-- Accumulator of the additional-relations loop of searchNodes: the entity
list, the name set (kept as the list of names, JS uses a Set synchronised
with the entity pushes) and the merged relation list. -/
structure SearchAcc where
  entities : List Entity
  names : List String
  relations : List Relation

/-- The endpoint pull of the additional-relations loop of searchNodes: a
name not yet in the set pulls its entity (when it exists in the graph)
into the result, keeping set and entity list in sync. -/
def pullEntity (g : KnowledgeGraph) (acc : SearchAcc) (n : String) : SearchAcc :=
  if acc.names.contains n then acc
  else
    match g.entities.find? (fun e => e.name == n) with
    | some e => { acc with entities := acc.entities ++ [e],
                           names := acc.names ++ [n] }
    | none => acc

/-- One iteration of the additional-relations loop of searchNodes: skip the
relation if its exact triple is present already, else push it and pull in
its from and then its to endpoint. -/
def searchStep (g : KnowledgeGraph) (acc : SearchAcc) (r : Relation) : SearchAcc :=
  if acc.relations.any (fun r0 =>
      r0.from_ == r.from_ && r0.to_ == r.to_ &&
      r0.relationType == r.relationType) then
    acc
  else
    pullEntity g
      (pullEntity g { acc with relations := acc.relations ++ [r] } r.from_)
      r.to_

/-- searchNodes: entities matching the query, relations between them, plus
relations whose type or observations match, together with those relations'
endpoint entities when they exist in the graph. -/
def searchNodes (g : KnowledgeGraph) (query : String) : KnowledgeGraph :=
  let lowerQuery := jsToLower query
  let matchingEntities := g.entities.filter (entityMatches lowerQuery)
  let matchingNames := matchingEntities.map (fun e => e.name)
  let matchingRelations := g.relations.filter (fun r =>
    matchingNames.contains r.from_ && matchingNames.contains r.to_)
  let additionalRelations := g.relations.filter (relationMatches lowerQuery)
  let acc := additionalRelations.foldl (searchStep g)
    { entities := matchingEntities, names := matchingNames,
      relations := matchingRelations }
  { entities := acc.entities, relations := acc.relations }

/-- Field extraction by observation prefix: obs.find(o => o.startsWith(pre))
followed by split(':', 2)[1]?.trim(); none models JS undefined. -/
def getObsField (obs : List String) (pre : String) : Option String :=
  match obs.find? (fun o => jsStartsWith o pre) with
  | some o => ((jsSplitColon o).get? 1).map (fun s => jsTrim s)
  | none => none

/-- JS "field || default": undefined and the empty string both fall back. -/
def orDefault (o : Option String) (d : String) : String :=
  match o with
  | some s => if s == "" then d else s
  | none => d

/-- A node of the dependency map of getTaskDependencies.  The JS node holds
object references in dependsOn and dependedOnBy; since the final
serialisation only reads the referenced tasks' names, the embedding stores
the names. -/
structure DepNode where
  task : Entity
  dependsOn : List String
  dependedOnBy : List String
  level : Nat
deriving DecidableEq, Repr

/-- The dependency map: a JS Map in insertion order, as an association
list; entries are only ever inserted (never overwritten), so keys are kept
unique. -/
abbrev DepMap := List (String × DepNode)

/-- Map lookup by key. -/
def dmLookup (m : DepMap) (k : String) : Option DepNode :=
  (m.find? (fun p => p.1 == k)).map (fun p => p.2)

/-- In-place mutation of the node stored under a key, as a functional
update. -/
def dmUpdate (m : DepMap) (k : String) (f : DepNode → DepNode) : DepMap :=
  m.map (fun p => if p.1 == k then (p.1, f p.2) else p)

/-- Map.set of a fresh key: appended, preserving JS Map insertion order. -/
def dmInsert (m : DepMap) (k : String) (v : DepNode) : DepMap :=
  m ++ [(k, v)]

/-- Lookup of a task entity by name, as done inside addDependencies. -/
def findTaskEntity (g : KnowledgeGraph) (n : String) : Option Entity :=
  g.entities.find? (fun e => e.name == n && e.entityType == "task")

/-- One iteration of the relation loop inside addDependencies.  dir = true
is the dependsOn direction, dir = false the dependedOnBy direction.
recurse stands for the recursive call at the next level.  none models a
thrown TypeError: the source dereferences dependencyMap.get(name)! after
the recursive call, which is undefined when the recursion was cut off by
the depth bound before inserting that key. -/
def addDepsStep (g : KnowledgeGraph) (recurse : Entity → DepMap → Option DepMap)
    (dir : Bool) (name : String) (m : DepMap) (r : Relation) : Option DepMap :=
  if dir then
    if r.relationType == "depends_on" && r.from_ == name then
      match findTaskEntity g r.to_ with
      | none => some m
      | some depTask =>
        match dmLookup m name with
        | none => none
        | some node =>
          if node.dependsOn.contains depTask.name then some m
          else
            match recurse depTask m with
            | none => none
            | some m1 =>
              match dmLookup m1 depTask.name with
              | none => none
              | some depNode =>
                let m2 := dmUpdate m1 name (fun n0 =>
                  { n0 with dependsOn := n0.dependsOn ++ [depTask.name] })
                some (if depNode.dependedOnBy.contains name then m2
                  else dmUpdate m2 depTask.name (fun n0 =>
                    { n0 with dependedOnBy := n0.dependedOnBy ++ [name] }))
    else some m
  else
    if r.relationType == "depends_on" && r.to_ == name then
      match findTaskEntity g r.from_ with
      | none => some m
      | some depTask =>
        match dmLookup m name with
        | none => none
        | some node =>
          if node.dependedOnBy.contains depTask.name then some m
          else
            match recurse depTask m with
            | none => none
            | some m1 =>
              match dmLookup m1 depTask.name with
              | none => none
              | some depNode =>
                let m2 := dmUpdate m1 name (fun n0 =>
                  { n0 with dependedOnBy := n0.dependedOnBy ++ [depTask.name] })
                some (if depNode.dependsOn.contains name then m2
                  else dmUpdate m2 depTask.name (fun n0 =>
                    { n0 with dependsOn := n0.dependsOn ++ [name] }))
    else some m

/-- The node creation of addDependencies: insert a fresh node for the
task unless present, at the current level in the dependsOn direction and
at level 0 otherwise. -/
def addDepsInit (lvl : Nat) (dir : Bool) (taskEntity : Entity)
    (m : DepMap) : DepMap :=
  if (dmLookup m taskEntity.name).isSome then m
  else dmInsert m taskEntity.name
    { task := taskEntity, dependsOn := [], dependedOnBy := [],
      level := if dir then lvl else 0 }

/-- The level shortening of addDependencies: in the dependsOn direction a
node reached again at a smaller level has its level lowered. -/
def addDepsLevel (lvl : Nat) (dir : Bool) (taskEntity : Entity)
    (m1 : DepMap) : DepMap :=
  match dmLookup m1 taskEntity.name with
  | some node =>
    if dir && decide (lvl < node.level) then
      dmUpdate m1 taskEntity.name (fun n0 => { n0 with level := lvl })
    else m1
  | none => m1

/-- The recursive helper addDependencies of getTaskDependencies, with the
guard "currentLevel > depth -> return" rendered as a fuel argument whose
invariant is fuel = depth + 1 - currentLevel: fuel 0 is exactly the
cut-off case, and each recursive call raises the level by one while
consuming one unit of fuel. -/
def addDeps (g : KnowledgeGraph) : Nat → Nat → Bool → Entity → DepMap → Option DepMap
  | 0, _, _, _, m => some m
  | fuel + 1, lvl, dir, taskEntity, m =>
    g.relations.foldlM
      (addDepsStep g (addDeps g fuel (lvl + 1) dir) dir taskEntity.name)
      (addDepsLevel lvl dir taskEntity (addDepsInit lvl dir taskEntity m))

/-- addDependencies proper, re-deriving the fuel from depth and level. -/
def addDependencies (g : KnowledgeGraph) (depth : Nat) (taskEntity : Entity)
    (currentLevel : Nat) (dir : Bool) (m : DepMap) : Option DepMap :=
  addDeps g (depth + 1 - currentLevel) currentLevel dir taskEntity m

/-- The helper getTaskAssignee: the first assigned_to relation from the
task whose target is a teamMember entity. -/
def getTaskAssignee (g : KnowledgeGraph) (taskName : String) : Option String :=
  g.relations.findSome? (fun r =>
    if r.relationType == "assigned_to" && r.from_ == taskName then
      (g.entities.find? (fun e =>
        e.name == r.to_ && e.entityType == "teamMember")).map (fun e => e.name)
    else none)

/-- One serialisable entry of the dependencies list. -/
structure DepEntry where
  task : Entity
  level : Nat
  dependsOn : List String
  dependedOnBy : List String
  status : String
  dueDate : Option String
  assignee : Option String
deriving DecidableEq, Repr

/-- Serialisation of one dependency node, as in the map over
dependencyMap.values(). -/
def mkDepEntry (g : KnowledgeGraph) (node : DepNode) : DepEntry :=
  { task := node.task
    level := node.level
    dependsOn := node.dependsOn
    dependedOnBy := node.dependedOnBy
    status := orDefault (getObsField node.task.observations "Status:") "not_started"
    dueDate := getObsField node.task.observations "DueDate:"
    assignee := getTaskAssignee g node.task.name }

/-- Adjacency-list lookup used by calculateCriticalPath. -/
def alGet (m : List (String × List String)) (k : String) : Option (List String) :=
  (m.find? (fun p => p.1 == k)).map (fun p => p.2)

/-- Map.set of the adjacency list: overwrite when present, append when
fresh. -/
def alSet (m : List (String × List String)) (k : String) (v : List String) :
    List (String × List String) :=
  if (m.find? (fun p => p.1 == k)).isSome then
    m.map (fun p => if p.1 == k then (p.1, v) else p)
  else m ++ [(k, v)]

/-- The depth-first path enumeration of calculateCriticalPath.  The cycle
guard excludes any next node already on the path as it was before the
current node was appended, so a name can occur at most twice on a path and
the recursion depth is bounded by twice the node count plus one; the fuel
passed at the top call is above that bound, so the cut-off branch is
unreachable for the states the source can build. -/
def findPaths (adj : List (String × List String)) (endNodes : List String) :
    Nat → String → List String → List (List String) → List (List String)
  | 0, _, _, acc => acc
  | fuel + 1, current, path, acc =>
    let newPath := path ++ [current]
    if endNodes.contains current then acc ++ [newPath]
    else
      ((alGet adj current).getD []).foldl
        (fun acc2 nxt =>
          if path.contains nxt then acc2
          else findPaths adj endNodes fuel nxt newPath acc2) acc

/-- calculateCriticalPath: adjacency list from the dependsOn edges, sources
and sinks from empty dependsOn / dependedOnBy lists, exhaustive path
enumeration, stable sort by length descending, first path wins.  The graph
argument of the source method is unused by its body and kept here. -/
def calculateCriticalPath (_g : KnowledgeGraph) (deps : List DepEntry) :
    List String :=
  let adj0 := deps.foldl (fun m dep => alSet m dep.task.name []) []
  let adj := deps.foldl (fun m dep =>
    dep.dependsOn.foldl (fun m2 dn =>
      alSet m2 dn (((alGet m2 dn).getD []) ++ [dep.task.name])) m) adj0
  let startNodes := (deps.filter (fun d => d.dependsOn.isEmpty)).map
    (fun d => d.task.name)
  let endNodes := (deps.filter (fun d => d.dependedOnBy.isEmpty)).map
    (fun d => d.task.name)
  let allPaths := startNodes.foldl
    (fun acc s => findPaths adj endNodes (2 * adj.length + 2) s [] acc) []
  let sorted := jsSort (fun a b => decide (b.length ≤ a.length)) allPaths
  match sorted with
  | p :: _ => p
  | [] => []

/-- The summary part of the getTaskDependencies result. -/
structure DepSummary where
  totalDependencies : Nat
  maxDepth : Nat
  blockedBy : Nat
deriving DecidableEq, Repr

/-- The getTaskDependencies result. -/
structure DepResult where
  task : Entity
  projectName : Option String
  dependencies : List DepEntry
  criticalPath : List String
  summary : DepSummary
deriving DecidableEq, Repr

/-- getTaskDependencies: find the task, resolve its project, expand the
dependency map in both directions from level 0, serialise, sort by level
(stable), and attach the critical path and summary.  Except.error carries
both the not-found throw and the TypeError crash that the expansion can
produce (see addDepsStep). -/
def getTaskDependencies (g : KnowledgeGraph) (taskName : String)
    (depth : Nat) : Except String DepResult :=
  match g.entities.find? (fun e =>
      e.name == taskName && e.entityType == "task") with
  | none => .error ("Task '" ++ taskName ++ "' not found")
  | some task =>
    let projectName := g.relations.findSome? (fun r =>
      if r.relationType == "part_of" && r.from_ == taskName then
        (g.entities.find? (fun e =>
          e.name == r.to_ && e.entityType == "project")).map (fun e => e.name)
      else none)
    match addDependencies g depth task 0 true [] with
    | none => .error "TypeError"
    | some ma =>
      match addDependencies g depth task 0 false ma with
      | none => .error "TypeError"
      | some mb =>
        let serializable := mb.map (fun p => mkDepEntry g p.2)
        let sorted := jsSort (fun a b => decide (a.level ≤ b.level))
          serializable
        .ok
          { task := task
            projectName := projectName
            dependencies := sorted
            criticalPath := calculateCriticalPath g sorted
            summary :=
              { totalDependencies := sorted.length - 1
                maxDepth := depth
                blockedBy := (sorted.filter (fun d =>
                  d.task.name != taskName && d.status != "completed" &&
                  getObsField task.observations "Status:" != some "completed")).length } }

/-- JS double values as produced by the arithmetic the engine performs:
NaN, the two infinities, and finite values modelled as exact rationals
(the concrete numbers involved are small counts and percentages, where
double arithmetic is exact; negative zero is identified with zero). -/
inductive JSNum where
  | nan : JSNum
  | inf : JSNum
  | ninf : JSNum
  | val : Rat → JSNum
deriving DecidableEq, Repr

/-- JS parseInt with no radix argument: skip leading whitespace, read an
optional sign, then either a 0x/0X-prefixed hexadecimal digit run or a
decimal digit run; NaN (none) when no digit follows. -/
def jsParseInt (s : String) : Option Int :=
  let cs := s.data.dropWhile (fun c => c.isWhitespace)
  let signed : Int × List Char :=
    match cs with
    | '-' :: rest => (-1, rest)
    | '+' :: rest => (1, rest)
    | _ => (1, cs)
  let hexVal : Char → Nat := fun c =>
    if c.isDigit then c.toNat - 48
    else if 'a' ≤ c && c ≤ 'f' then c.toNat - 87
    else c.toNat - 55
  let isHex : Char → Bool := fun c =>
    c.isDigit || ('a' ≤ c && c ≤ 'f') || ('A' ≤ c && c ≤ 'F')
  match signed.2 with
  | '0' :: x :: rest =>
    if x == 'x' || x == 'X' then
      let ds := rest.takeWhile isHex
      if ds.isEmpty then none
      else some (signed.1 * (ds.foldl (fun a c => a * 16 + hexVal c) 0 : Nat))
    else
      let ds := signed.2.takeWhile (fun c => c.isDigit)
      some (signed.1 * (ds.foldl (fun a c => a * 10 + (c.toNat - 48)) 0 : Nat))
  | _ =>
    let ds := signed.2.takeWhile (fun c => c.isDigit)
    if ds.isEmpty then none
    else some (signed.1 * (ds.foldl (fun a c => a * 10 + (c.toNat - 48)) 0 : Nat))

/-- The result of parseInt used as a number: NaN when parsing failed. -/
def jsOfParseInt : Option Int → JSNum
  | some n => .val n
  | none => .nan

/-- JS division. -/
def jsDiv : JSNum → JSNum → JSNum
  | .nan, _ => .nan
  | _, .nan => .nan
  | .val x, .val y =>
    if y = 0 then (if x = 0 then .nan else if x > 0 then .inf else .ninf)
    else .val (x / y)
  | .inf, .val y => if y < 0 then .ninf else .inf
  | .ninf, .val y => if y < 0 then .inf else .ninf
  | .val _, .inf => .val 0
  | .val _, .ninf => .val 0
  | _, _ => .nan

/-- JS multiplication. -/
def jsMul : JSNum → JSNum → JSNum
  | .nan, _ => .nan
  | _, .nan => .nan
  | .val x, .val y => .val (x * y)
  | .inf, .val y => if y = 0 then .nan else if y > 0 then .inf else .ninf
  | .val x, .inf => if x = 0 then .nan else if x > 0 then .inf else .ninf
  | .ninf, .val y => if y = 0 then .nan else if y > 0 then .ninf else .inf
  | .val x, .ninf => if x = 0 then .nan else if x > 0 then .ninf else .inf
  | .inf, .inf => .inf
  | .inf, .ninf => .ninf
  | .ninf, .inf => .ninf
  | .ninf, .ninf => .inf

/-- JS subtraction, used only inside sort comparators. -/
def jsSub : JSNum → JSNum → JSNum
  | .nan, _ => .nan
  | _, .nan => .nan
  | .val x, .val y => .val (x - y)
  | .inf, .inf => .nan
  | .inf, _ => .inf
  | .ninf, .ninf => .nan
  | .ninf, _ => .ninf
  | .val _, .inf => .ninf
  | .val _, .ninf => .inf

/-- Math.round on a finite double: floor (x + 1/2). -/
def jsRoundQ (q : Rat) : Int := ⌊q + 1 / 2⌋

/-- Math.round lifted to JSNum. -/
def jsNumRound : JSNum → JSNum
  | .val q => .val (jsRoundQ q)
  | x => x

/-- Math.min: NaN-propagating minimum. -/
def jsMin : JSNum → JSNum → JSNum
  | .nan, _ => .nan
  | _, .nan => .nan
  | .ninf, _ => .ninf
  | _, .ninf => .ninf
  | .inf, x => x
  | x, .inf => x
  | .val x, .val y => .val (min x y)

/-- Strict comparison against a finite bound; NaN compares false. -/
def jsGtQ (x : JSNum) (q : Rat) : Bool :=
  match x with
  | .val y => decide (q < y)
  | .inf => true
  | _ => false

/-- Strict less-than against a finite bound; NaN compares false. -/
def jsLtQ (x : JSNum) (q : Rat) : Bool :=
  match x with
  | .val y => decide (y < q)
  | .ninf => true
  | _ => false

/-- Ordering a stable sort uses for a JS numeric comparator value c: the
ECMA sort algorithm treats a NaN comparator result as 0, so an element
stays before its partner exactly when c is NaN or nonpositive. -/
def jsCmpKeeps : JSNum → Bool
  | .nan => true
  | .ninf => true
  | .inf => false
  | .val q => decide (q ≤ 0)

/-- Task status with the source's || fallback to not_started. -/
def taskStatusOf (t : Entity) : String :=
  orDefault (getObsField t.observations "Status:") "not_started"

/-- The assigned-task collection loop of getResourceAllocation: relations
of type requires pointing at the resource whose from is a task entity. -/
def tasksRequiringResource (g : KnowledgeGraph) (rname : String) : List Entity :=
  g.relations.foldl (fun acc r =>
    if r.relationType == "requires" && r.to_ == rname then
      match g.entities.find? (fun e =>
          e.name == r.from_ && e.entityType == "task") with
      | some t => acc ++ [t]
      | none => acc
    else acc) []

/-- The team-member collection loop of getResourceAllocation: relations of
type uses pointing at the resource whose from is a teamMember entity. -/
def teamMembersUsingResource (g : KnowledgeGraph) (rname : String) : List Entity :=
  g.relations.foldl (fun acc r =>
    if r.relationType == "uses" && r.to_ == rname then
      match g.entities.find? (fun e =>
          e.name == r.from_ && e.entityType == "teamMember") with
      | some t => acc ++ [t]
      | none => acc
    else acc) []

/-- The due-date comparator of the assigned-task sort: a task without a
due date sorts after one with a date; otherwise date-time difference, with
an unparseable date producing a NaN comparator value that the sort treats
as 0 (order kept). -/
def dueDateLe (parseTime : String → Option Rat) (a b : Entity) : Bool :=
  let aDate := orDefault (getObsField a.observations "DueDate:") ""
  let bDate := orDefault (getObsField b.observations "DueDate:") ""
  if aDate == "" then false
  else if bDate == "" then true
  else
    match parseTime aDate, parseTime bDate with
    | some x, some y => decide (x ≤ y)
    | _, _ => true

/-- Grouping of tasks by status, a JS object built in first-seen key
order. -/
def groupByStatus (tasks : List Entity) : List (String × List Entity) :=
  tasks.foldl (fun acc t =>
    let s := taskStatusOf t
    if (acc.find? (fun p => p.1 == s)).isSome then
      acc.map (fun p => if p.1 == s then (p.1, p.2 ++ [t]) else p)
    else acc ++ [(s, [t])]) []

/-- The info block of one resource allocation. -/
structure ResourceInfo where
  type : Option String
  availability : Option String
  capacity : Option String
  cost : Option String
deriving DecidableEq, Repr

/-- The usage block of one resource allocation. -/
structure ResourceUsage where
  totalTasks : Nat
  inProgressTasks : Nat
  usagePercentage : JSNum
deriving DecidableEq, Repr

/-- One element of the resourceAllocations list. -/
structure ResourceAlloc where
  resource : Entity
  info : ResourceInfo
  usage : ResourceUsage
  assignedTasks : List Entity
  tasksByStatus : List (String × List Entity)
  teamMembers : List Entity
deriving DecidableEq, Repr

/-- The usage-percentage formula of getResourceAllocation: the JS
conditional branches on truthiness of the capacity string, and the
formula min(100, round((inProgress / parseInt(capacity)) * 100)) runs for
every nonempty capacity string, NaN included. -/
def usagePercentageOf (capacity : Option String)
    (totalTasks inProgressTasks : Nat) : JSNum :=
  match capacity with
  | some c =>
    if c != "" then
      jsMin (.val 100) (jsNumRound (jsMul
        (jsDiv (.val inProgressTasks) (jsOfParseInt (jsParseInt c)))
        (.val 100)))
    else if totalTasks > 0 then .val 50 else .val 0
  | none => if totalTasks > 0 then .val 50 else .val 0

/-- The per-resource body of getResourceAllocation.  The usage percentage
branches on JS truthiness of the capacity string: when the Capacity
observation is present and nonempty the formula min(100, round((inProgress
/ parseInt(capacity)) * 100)) runs even if parseInt returns NaN; only a
missing or empty capacity falls back to 50 (tasks present) or 0. -/
def processResource (parseTime : String → Option Rat) (g : KnowledgeGraph)
    (resource : Entity) : ResourceAlloc :=
  let capacity := getObsField resource.observations "Capacity:"
  let assignedTasks := jsSort (dueDateLe parseTime)
    (tasksRequiringResource g resource.name)
  let tasksByStatus := groupByStatus assignedTasks
  let teamMembers := teamMembersUsingResource g resource.name
  let totalTasks := assignedTasks.length
  let inProgressTasks :=
    ((tasksByStatus.find? (fun p => p.1 == "in_progress")).map
      (fun p => p.2.length)).getD 0
  let usagePercentage := usagePercentageOf capacity totalTasks inProgressTasks
  { resource := resource
    info :=
      { type := getObsField resource.observations "Type:"
        availability := getObsField resource.observations "Availability:"
        capacity := capacity
        cost := getObsField resource.observations "Cost:" }
    usage :=
      { totalTasks := totalTasks
        inProgressTasks := inProgressTasks
        usagePercentage := usagePercentage }
    assignedTasks := assignedTasks
    tasksByStatus := tasksByStatus
    teamMembers := teamMembers }

/-- The summary block of getResourceAllocation. -/
structure RASummary where
  totalResources : Nat
  overallocatedCount : Nat
  underutilizedCount : Nat
deriving DecidableEq, Repr

/-- The getResourceAllocation result. -/
structure RAResult where
  project : Entity
  resources : List ResourceAlloc
  summary : RASummary
  overallocatedResources : List ResourceAlloc
  underutilizedResources : List ResourceAlloc
deriving DecidableEq, Repr

/-- getResourceAllocation: resolve the project, select its part_of-linked
resources (optionally restricted to one name; an empty name string is
falsy in JS and behaves as no restriction), build the per-resource
allocations, sort them by usage descending and flag over- and
under-utilisation. -/
def getResourceAllocation (parseTime : String → Option Rat)
    (g : KnowledgeGraph) (projectName : String) (resourceName : Option String) :
    Except String RAResult :=
  match g.entities.find? (fun e =>
      e.name == projectName && e.entityType == "project") with
  | none => .error ("Project '" ++ projectName ++ "' not found")
  | some project =>
    let rn : Option String :=
      match resourceName with
      | some s => if s == "" then none else some s
      | none => none
    let resources : List Entity :=
      match rn with
      | some s => g.entities.filter (fun e =>
          e.name == s && e.entityType == "resource" &&
          g.relations.any (fun r => r.from_ == e.name &&
            r.to_ == projectName && r.relationType == "part_of"))
      | none => g.entities.filter (fun e =>
          e.entityType == "resource" &&
          g.relations.any (fun r => r.from_ == e.name &&
            r.to_ == projectName && r.relationType == "part_of"))
    if rn.isSome && resources.length == 0 then
      .error ("Resource not found in project '" ++ projectName ++ "'")
    else
      let allocs := jsSort
        (fun a b => jsCmpKeeps (jsSub b.usage.usagePercentage
          a.usage.usagePercentage))
        (resources.map (processResource parseTime g))
      let over := allocs.filter (fun r2 => jsGtQ r2.usage.usagePercentage 90)
      let under := allocs.filter (fun r2 =>
        jsLtQ r2.usage.usagePercentage 20 && r2.usage.totalTasks > 0)
      .ok
        { project := project
          resources := allocs
          summary :=
            { totalResources := resources.length
              overallocatedCount := over.length
              underutilizedCount := under.length }
          overallocatedResources := over
          underutilizedResources := under }

/-- The getProjectEntities helper of getProjectHealth: entities of the
given type linked part_of to the project. -/
def getProjectEntities (g : KnowledgeGraph) (projectName ty : String) :
    List Entity :=
  g.entities.filter (fun e =>
    e.entityType == ty &&
    g.relations.any (fun r =>
      r.from_ == e.name && r.to_ == projectName && r.relationType == "part_of"))

/-- Count of entities whose Status observation field equals the value
(strict equality on the trimmed field; an absent field never matches). -/
def statusCount (es : List Entity) (v : String) : Nat :=
  (es.filter (fun e => getObsField e.observations "Status:" == some v)).length

/-- The healthFactors array of getProjectHealth: eight bounded sub-factors
that each fall back to the neutral 50 when their population is empty, plus
the schedule factor 30/70. -/
def projectHealthFactors (g : KnowledgeGraph) (projectName : String)
    (behindSchedule : Bool) : List Rat :=
  let tasks := getProjectEntities g projectName "task"
  let milestones := getProjectEntities g projectName "milestone"
  let issues := getProjectEntities g projectName "issue"
  let risks := getProjectEntities g projectName "risk"
  let completedTasks := statusCount tasks "completed"
  let blockedTasks := statusCount tasks "blocked"
  let taskCompletionRate : Rat :=
    if tasks.length > 0 then ((completedTasks : Rat) / tasks.length) * 100 else 0
  let reachedMilestones := statusCount milestones "reached"
  let missedMilestones := statusCount milestones "missed"
  let milestoneCompletionRate : Rat :=
    if milestones.length > 0 then
      ((reachedMilestones : Rat) / milestones.length) * 100
    else 0
  let resolvedIssues := statusCount issues "resolved"
  let openIssues := issues.length - resolvedIssues
  let mitigatedRisks := (risks.filter (fun e =>
    getObsField e.observations "Status:" == some "mitigating" ||
    getObsField e.observations "Status:" == some "avoided")).length
  let activeRisks := (risks.filter (fun e =>
    getObsField e.observations "Status:" == some "identified" ||
    getObsField e.observations "Status:" == some "monitoring")).length
  [ if tasks.length > 0 then min 100 taskCompletionRate else 50,
    if tasks.length > 0 then
      max 0 (100 - ((blockedTasks : Rat) / tasks.length) * 200)
    else 50,
    if milestones.length > 0 then min 100 milestoneCompletionRate else 50,
    if milestones.length > 0 then
      max 0 (100 - ((missedMilestones : Rat) / milestones.length) * 200)
    else 50,
    if issues.length > 0 then
      min 100 (((resolvedIssues : Rat) / issues.length) * 100)
    else 50,
    if issues.length > 0 then
      max 0 (100 - ((openIssues : Rat) / issues.length) * 100)
    else 50,
    if risks.length > 0 then
      min 100 (((mitigatedRisks : Rat) / risks.length) * 100)
    else 50,
    if risks.length > 0 then
      max 0 (100 - ((activeRisks : Rat) / risks.length) * 100)
    else 50,
    if behindSchedule then 30 else 70 ]

/-- The issue comparator of the topIssues sort of getProjectHealth. -/
def issueCmp (a b : Entity) : Int :=
  let aP := orDefault (getObsField a.observations "Priority:") "N/A"
  let bP := orDefault (getObsField b.observations "Priority:") "N/A"
  if aP == "high" && bP != "high" then -1
  else if aP != "high" && bP == "high" then 1
  else if aP == "N/A" && bP == "low" then -1
  else if aP == "low" && bP == "N/A" then 1
  else 0

/-- Task metrics block of the getProjectHealth result. -/
structure TasksMetrics where
  total : Nat
  completed : Nat
  blocked : Nat
  completionRate : Int
deriving DecidableEq, Repr

/-- Milestone metrics block. -/
structure MilestonesMetrics where
  total : Nat
  reached : Nat
  missed : Nat
  completionRate : Int
deriving DecidableEq, Repr

/-- Issue metrics block; the source field open is a Lean keyword and is
rendered open_. -/
structure IssuesMetrics where
  total : Nat
  resolved : Nat
  open_ : Nat
  resolutionRate : Int
deriving DecidableEq, Repr

/-- Risk metrics block. -/
structure RisksMetrics where
  total : Nat
  mitigated : Nat
  active : Nat
  mitigationRate : Int
deriving DecidableEq, Repr

/-- Timeline metrics block. -/
structure TimelineMetrics where
  progress : Int
  behindSchedule : Bool
deriving DecidableEq, Repr

/-- Metrics of the getProjectHealth result. -/
structure HealthMetrics where
  tasks : TasksMetrics
  milestones : MilestonesMetrics
  issues : IssuesMetrics
  risks : RisksMetrics
  timeline : TimelineMetrics
deriving DecidableEq, Repr

/-- The getProjectHealth result. -/
structure HealthResult where
  project : Entity
  healthScore : Int
  healthStatus : String
  metrics : HealthMetrics
  topIssues : List Entity
  recommendations : List String
deriving DecidableEq, Repr

/-- generateHealthRecommendations.  The call site hands the raw entity
lists as the metrics object, so metrics.tasks.blocked, metrics.issues.open
and metrics.risks.active are all undefined there and every comparison
against them is false; only healthStatus and metrics.behindSchedule carry
information into the branches. -/
def generateHealthRecommendations (healthStatus : String)
    (behindSchedule : Bool) : List String :=
  if healthStatus == "healthy" then
    ["Continue current management practices",
     "Document successful strategies for future projects"]
  else if healthStatus == "attention_needed" then
    (if behindSchedule then ["Review project timeline and adjust as needed"]
     else [])
  else if healthStatus == "at_risk" then
    (if behindSchedule then
      ["Reevaluate project scope and timeline - consider adjustments"]
     else [])
  else if healthStatus == "critical" then
    ["Conduct emergency project review with stakeholders",
     "Consider project restructuring or reset",
     "Implement daily status meetings and tight monitoring"]
  else []

/-- The timeline block of getProjectHealth: timelineProgress and
behindSchedule.  The source guards on truthiness of both date strings,
then on end > start over the parsed times (false when either is NaN);
behindSchedule compares the task completion rate against the elapsed-time
percentage minus 15. -/
def scheduleState (parseTime : String → Option Rat) (now : Rat)
    (taskCompletionRate : Rat) (startDate endDate : Option String) :
    Int × Bool :=
  match startDate, endDate with
  | some s, some e =>
    if s != "" && e != "" then
      match parseTime s, parseTime e with
      | some st, some en =>
        if en > st then
          let timeElapsedPercent : Rat :=
            min 100 (max 0 ((now - st) / (en - st) * 100))
          (jsRoundQ timeElapsedPercent,
           decide (taskCompletionRate < timeElapsedPercent - 15))
        else (0, false)
      | _, _ => (0, false)
    else (0, false)
  | _, _ => (0, false)

/-- getProjectHealth: resolve the project, compute the per-population
metrics, derive the schedule state from the StartDate/EndDate observation
fields through the date oracle parseTime and the current instant now,
average the nine health factors, and classify.  A missing, empty or
unparseable date leaves the schedule state at (0, not behind). -/
def getProjectHealth (parseTime : String → Option Rat) (now : Rat)
    (g : KnowledgeGraph) (projectName : String) : Except String HealthResult :=
  match g.entities.find? (fun e =>
      e.name == projectName && e.entityType == "project") with
  | none => .error ("Project '" ++ projectName ++ "' not found")
  | some project =>
    let startDate := getObsField project.observations "StartDate:"
    let endDate := getObsField project.observations "EndDate:"
    let tasks := getProjectEntities g projectName "task"
    let milestones := getProjectEntities g projectName "milestone"
    let issues := getProjectEntities g projectName "issue"
    let risks := getProjectEntities g projectName "risk"
    let completedTasks := statusCount tasks "completed"
    let blockedTasks := statusCount tasks "blocked"
    let taskCompletionRate : Rat :=
      if tasks.length > 0 then ((completedTasks : Rat) / tasks.length) * 100
      else 0
    let reachedMilestones := statusCount milestones "reached"
    let missedMilestones := statusCount milestones "missed"
    let milestoneCompletionRate : Rat :=
      if milestones.length > 0 then
        ((reachedMilestones : Rat) / milestones.length) * 100
      else 0
    let resolvedIssues := statusCount issues "resolved"
    let openIssues := issues.length - resolvedIssues
    let mitigatedRisks := (risks.filter (fun e =>
      getObsField e.observations "Status:" == some "mitigating" ||
      getObsField e.observations "Status:" == some "avoided")).length
    let activeRisks := (risks.filter (fun e =>
      getObsField e.observations "Status:" == some "identified" ||
      getObsField e.observations "Status:" == some "monitoring")).length
    let sched := scheduleState parseTime now taskCompletionRate startDate endDate
    let behindSchedule := sched.2
    let hf := projectHealthFactors g projectName behindSchedule
    let healthScore := jsRoundQ ((hf.foldl (fun a b => a + b) 0) / hf.length)
    let healthStatus :=
      if healthScore ≥ 80 then "healthy"
      else if healthScore ≥ 60 then "attention_needed"
      else if healthScore ≥ 40 then "at_risk"
      else "critical"
    let topIssues := (jsSort (fun a b => decide (issueCmp a b ≤ 0))
      (issues.filter (fun i =>
        getObsField i.observations "Status:" != some "resolved" &&
        getObsField i.observations "Status:" != some "wont_fix"))).take 3
    .ok
      { project := project
        healthScore := healthScore
        healthStatus := healthStatus
        metrics :=
          { tasks :=
              { total := tasks.length
                completed := completedTasks
                blocked := blockedTasks
                completionRate := jsRoundQ taskCompletionRate }
            milestones :=
              { total := milestones.length
                reached := reachedMilestones
                missed := missedMilestones
                completionRate := jsRoundQ milestoneCompletionRate }
            issues :=
              { total := issues.length
                resolved := resolvedIssues
                open_ := openIssues
                resolutionRate :=
                  if issues.length > 0 then
                    jsRoundQ (((resolvedIssues : Rat) / issues.length) * 100)
                  else 0 }
            risks :=
              { total := risks.length
                mitigated := mitigatedRisks
                active := activeRisks
                mitigationRate :=
                  if risks.length > 0 then
                    jsRoundQ (((mitigatedRisks : Rat) / risks.length) * 100)
                  else 0 }
            timeline :=
              { progress := sched.1
                behindSchedule := behindSchedule } }
        topIssues := topIssues
        recommendations :=
          generateHealthRecommendations healthStatus behindSchedule }

/-! Helper lemmas about the store operations. -/

/-- A batch that passes entity validation has no name clashing with the
loaded graph. -/
theorem validateNewEntities_ok_disjoint (g : KnowledgeGraph) :
    ∀ es, validateNewEntities g es = .ok () →
      ∀ e ∈ es, ∀ x ∈ g.entities, x.name ≠ e.name := by
  intro es
  induction es with
  | nil => intro _ e he; cases he
  | cons a rest ih =>
    intro h e he x hx
    rw [validateNewEntities] at h
    split at h
    · cases h
    · split at h
      · cases h
      · rename_i hdup _
        rw [List.mem_cons] at he
        rcases he with he | he
        · subst he
          intro hcon
          exact hdup (List.any_eq_true.mpr ⟨x, hx, by simp [hcon]⟩)
        · exact ih h e he x hx

/-- Inversion of a successful createEntities: validation passed and the
result is the graph with the batch appended. -/
theorem createEntities_ok (g : KnowledgeGraph) (es : List Entity)
    (g' : KnowledgeGraph) (h : createEntities g es = .ok g') :
    validateNewEntities g es = .ok () ∧
      g' = { g with entities := g.entities ++ es } := by
  rw [createEntities] at h
  rcases hv : validateNewEntities g es with m | u
  · rw [hv] at h; cases h
  · rw [hv] at h
    cases u
    exact ⟨rfl, (Except.ok.injEq _ _).mp h.symm⟩

/-- C1, amended core: when the batch itself has pairwise distinct names, a
successful createEntities preserves global name uniqueness. -/
theorem createEntities_preserves_nodup (g : KnowledgeGraph) (es : List Entity)
    (g' : KnowledgeGraph)
    (hg : (g.entities.map (fun e => e.name)).Nodup)
    (hes : (es.map (fun e => e.name)).Nodup)
    (h : createEntities g es = .ok g') :
    (g'.entities.map (fun e => e.name)).Nodup := by
  obtain ⟨hval, hg'⟩ := createEntities_ok g es g' h
  subst hg'
  simp only [List.map_append]
  rw [List.nodup_append]
  refine ⟨hg, hes, ?_⟩
  intro a ha hb
  obtain ⟨x, hx, hxa⟩ := List.mem_map.mp ha
  obtain ⟨e, he, hea⟩ := List.mem_map.mp hb
  exact validateNewEntities_ok_disjoint g es hval e he x hx (hxa.trans hea.symm)

/-- Concrete entity used by several witnesses: a task named A. -/
def entA : Entity := { name := "A", entityType := "task", observations := [] }

/-- Concrete entity: a project named P. -/
def entP : Entity := { name := "P", entityType := "project", observations := [] }

/-- The empty graph (what loadGraph returns for a missing file). -/
def emptyG : KnowledgeGraph := { entities := [], relations := [] }

/-- The graph holding the duplicated task A twice. -/
def dupG : KnowledgeGraph := { entities := [entA, entA], relations := [] }

/-- The graph holding the project P and the task A. -/
def paG : KnowledgeGraph := { entities := [entP, entA], relations := [] }

/-- C1 counterexample: a batch holding the same fresh name twice passes the
validation loop, because each entity is only checked against the loaded
graph, and both copies are appended: the saved graph then holds two
entities named A, not exactly one. -/
theorem createEntities_intra_batch_duplicate :
    createEntities emptyG [entA, entA] = Except.ok dupG ∧
    (dupG.entities.filter (fun e => e.name == "A")).length = 2 :=
  ⟨rfl, rfl⟩

/-- C1, amended: on a graph with unique entity names, a batch accepted by
createEntities whose own names are pairwise distinct yields a saved graph
holding exactly one entity with each name. -/
theorem createEntities_unique_names (g : KnowledgeGraph) (es : List Entity)
    (g' : KnowledgeGraph)
    (hg : (g.entities.map (fun e => e.name)).Nodup)
    (hes : (es.map (fun e => e.name)).Nodup)
    (h : createEntities g es = .ok g') :
    ∀ e ∈ g'.entities, (g'.entities.map (fun x => x.name)).count e.name = 1 := by
  intro e he
  exact List.count_eq_one_of_mem
    (createEntities_preserves_nodup g es g' hg hes h)
    (List.mem_map.mpr ⟨e, he, rfl⟩)

/-- Witness for createEntities_unique_names at a concrete graph and batch,
instantiated at the saved entity A. -/
theorem createEntities_unique_names_witness :
    (paG.entities.map (fun x => x.name)).count entA.name = 1 :=
  createEntities_unique_names
    { entities := [entP], relations := [] } [entA] paG
    (by decide) (by decide) rfl entA (by decide)

/-- Inversion of a successful setEntityStatus: the saved relations are the
survivors of the has_status sweep plus the one new relation. -/
theorem setEntityStatus_ok (g : KnowledgeGraph) (x v : String)
    (g' : KnowledgeGraph) (h : setEntityStatus g x v = .ok g') :
    g'.relations =
      (g.relations.filter (fun r =>
        !(r.from_ == x && r.relationType == "has_status"))) ++
      [{ from_ := x, to_ := "status:" ++ v, relationType := "has_status" }] := by
  rw [setEntityStatus] at h
  split at h
  · cases h
  · cases h; rfl

/-- Inversion of a successful setEntityPriority. -/
theorem setEntityPriority_ok (g : KnowledgeGraph) (x v : String)
    (g' : KnowledgeGraph) (h : setEntityPriority g x v = .ok g') :
    g'.relations =
      (g.relations.filter (fun r =>
        !(r.from_ == x && r.relationType == "has_priority"))) ++
      [{ from_ := x, to_ := "priority:" ++ v, relationType := "has_priority" }] := by
  rw [setEntityPriority] at h
  split at h
  · cases h
  · cases h; rfl

/-- Sweeping a predicate out of a list and appending one witness leaves
exactly that witness satisfying the predicate. -/
theorem filter_swept_append {α : Type} (l : List α) (p : α → Bool) (nr : α)
    (hnr : p nr = true) :
    ((l.filter (fun r => !(p r))) ++ [nr]).filter p = [nr] := by
  rw [List.filter_append, List.filter_filter]
  simp [hnr]

/-- find? after the sweep-and-append pattern returns the new element. -/
theorem find?_swept_append {α : Type} (l : List α) (p : α → Bool) (nr : α)
    (hnr : p nr = true) :
    ((l.filter (fun r => !(p r))) ++ [nr]).find? p = some nr := by
  rw [List.find?_append]
  have h1 : (l.filter (fun r => !(p r))).find? p = none := by
    rw [List.find?_eq_none]
    intro y hy
    have := (List.mem_filter.mp hy).2
    simp at this
    simp [this]
  rw [h1]
  simp [List.find?, hnr]

/-- C2: after setEntityStatus x active then setEntityStatus x completed the
graph holds exactly one has_status relation from x and getEntityStatus
returns completed; in general every successful setEntityStatus or
setEntityPriority leaves exactly one current relation of its kind for the
subject. -/
theorem setEntityStatus_single_current_value (g g2 g3 : KnowledgeGraph)
    (x : String)
    (_h1 : setEntityStatus g x "active" = .ok g2)
    (h2 : setEntityStatus g2 x "completed" = .ok g3) :
    ((g3.relations.filter (fun r =>
        r.from_ == x && r.relationType == "has_status")).length = 1 ∧
      getEntityStatus g3 x = some "completed") ∧
    (∀ g' v h', setEntityStatus g' x v = .ok h' →
      (h'.relations.filter (fun r =>
        r.from_ == x && r.relationType == "has_status")).length = 1) ∧
    (∀ g' v h', setEntityPriority g' x v = .ok h' →
      (h'.relations.filter (fun r =>
        r.from_ == x && r.relationType == "has_priority")).length = 1) := by
  have hs : ∀ g' v h', setEntityStatus g' x v = .ok h' →
      (h'.relations.filter (fun r =>
        r.from_ == x && r.relationType == "has_status")).length = 1 := by
    intro g' v h' h
    rw [setEntityStatus_ok g' x v h' h,
      filter_swept_append _ _ _ (by simp)]
    rfl
  have hp : ∀ g' v h', setEntityPriority g' x v = .ok h' →
      (h'.relations.filter (fun r =>
        r.from_ == x && r.relationType == "has_priority")).length = 1 := by
    intro g' v h' h
    rw [setEntityPriority_ok g' x v h' h,
      filter_swept_append _ _ _ (by simp)]
    rfl
  refine ⟨⟨hs g2 "completed" g3 h2, ?_⟩, hs, hp⟩
  rw [getEntityStatus, setEntityStatus_ok g2 x "completed" g3 h2,
    find?_swept_append _ _ _ (by simp)]
  rfl

/-- Graph after setting status active on X over the empty graph. -/
def gX1 : KnowledgeGraph :=
  { entities := [],
    relations := [{ from_ := "X", to_ := "status:active",
                    relationType := "has_status" }] }

/-- Graph after then setting status completed on X. -/
def gX2 : KnowledgeGraph :=
  { entities := [],
    relations := [{ from_ := "X", to_ := "status:completed",
                    relationType := "has_status" }] }

/-- Witness for setEntityStatus_single_current_value on a concrete chain of
two calls. -/
theorem setEntityStatus_single_current_value_witness :
    ((gX2.relations.filter (fun r =>
        r.from_ == "X" && r.relationType == "has_status")).length = 1 ∧
      getEntityStatus gX2 "X" = some "completed") ∧
    (∀ g' v h', setEntityStatus g' "X" v = .ok h' →
      (h'.relations.filter (fun r =>
        r.from_ == "X" && r.relationType == "has_status")).length = 1) ∧
    (∀ g' v h', setEntityPriority g' "X" v = .ok h' →
      (h'.relations.filter (fun r =>
        r.from_ == "X" && r.relationType == "has_priority")).length = 1) :=
  setEntityStatus_single_current_value emptyG gX1 gX2 "X" rfl rfl

/-- A batch containing an invalid relation makes the validation loop fail,
whatever comes before it. -/
theorem validateNewRelations_error_of_invalid (g : KnowledgeGraph) :
    ∀ rs, (∃ r ∈ rs,
        (¬ ∃ e ∈ g.entities, e.name = r.from_) ∨
        (¬ ∃ e ∈ g.entities, e.name = r.to_) ∨
        r.relationType ∉ VALID_RELATION_TYPES ∨
        (∃ r0 ∈ g.relations, r0.from_ = r.from_ ∧ r0.to_ = r.to_ ∧
          r0.relationType = r.relationType)) →
      ∃ msg, validateNewRelations g rs = .error msg := by
  intro rs
  induction rs with
  | nil => rintro ⟨r, hr, _⟩; cases hr
  | cons a rest ih =>
    rintro ⟨r, hr, hbad⟩
    rw [List.mem_cons] at hr
    rw [validateNewRelations]
    rcases hfrom : g.entities.any (fun e => e.name == a.from_) with _ | _
    · exact ⟨_, rfl⟩
    · rcases hto : g.entities.any (fun e => e.name == a.to_) with _ | _
      · exact ⟨_, rfl⟩
      · rcases hty : VALID_RELATION_TYPES.contains a.relationType with _ | _
        · exact ⟨_, rfl⟩
        · rcases hdup : g.relations.any (fun r0 =>
              r0.from_ == a.from_ && r0.to_ == a.to_ &&
              r0.relationType == a.relationType) with _ | _
          · rcases hr with hr | hr
            · subst hr
              exfalso
              rcases hbad with hbad | hbad | hbad | hbad
              · exact hbad (by
                  obtain ⟨e, he, hee⟩ := List.any_eq_true.mp hfrom
                  exact ⟨e, he, by simpa using hee⟩)
              · exact hbad (by
                  obtain ⟨e, he, hee⟩ := List.any_eq_true.mp hto
                  exact ⟨e, he, by simpa using hee⟩)
              · exact hbad (by simpa using hty)
              · obtain ⟨r0, h0, h1, h2, h3⟩ := hbad
                have hc : (g.relations.any (fun r0 =>
                    r0.from_ == r.from_ && r0.to_ == r.to_ &&
                    r0.relationType == r.relationType)) = true :=
                  List.any_eq_true.mpr ⟨r0, h0, by simp [h1, h2, h3]⟩
                rw [hdup] at hc
                cases hc
            · simpa using ih ⟨r, hr, hbad⟩
          · exact ⟨_, rfl⟩

/-- C3: a batch containing any invalid relation (missing endpoint, unknown
type, or duplicate of an existing triple) makes createRelations throw, so
nothing is appended and nothing is saved: the graph state the source would
persist is only produced on the .ok path. -/
theorem createRelations_batch_atomic (g : KnowledgeGraph) (rs : List Relation)
    (hbad : ∃ r ∈ rs,
        (¬ ∃ e ∈ g.entities, e.name = r.from_) ∨
        (¬ ∃ e ∈ g.entities, e.name = r.to_) ∨
        r.relationType ∉ VALID_RELATION_TYPES ∨
        (∃ r0 ∈ g.relations, r0.from_ = r.from_ ∧ r0.to_ = r.to_ ∧
          r0.relationType = r.relationType)) :
    (∃ msg, createRelations g rs = .error msg) ∧
      ∀ g', createRelations g rs ≠ .ok g' := by
  obtain ⟨msg, hmsg⟩ := validateNewRelations_error_of_invalid g rs hbad
  have herr : createRelations g rs = .error msg := by
    rw [createRelations, hmsg]
  exact ⟨⟨msg, herr⟩, fun g' hok => by rw [herr] at hok; cases hok⟩

/-- A relation of type depends_on from B to a missing entity C. -/
def relBC : Relation := { from_ := "B", to_ := "C", relationType := "depends_on" }

/-- A valid relation between the two entities of paG. -/
def relAP : Relation := { from_ := "A", to_ := "P", relationType := "part_of" }

/-- Witness for createRelations_batch_atomic: a batch whose first item is
valid and whose second references the missing entity C is rejected. -/
theorem createRelations_batch_atomic_witness :
    (∃ msg, createRelations paG [relAP, relBC] = .error msg) ∧
      ∀ g', createRelations paG [relAP, relBC] ≠ .ok g' :=
  createRelations_batch_atomic paG [relAP, relBC]
    ⟨relBC, by decide, Or.inr (Or.inl (by decide))⟩

/-- A batch that passes relation validation has both endpoints of every
item among the loaded entities. -/
theorem validateNewRelations_ok_endpoints (g : KnowledgeGraph) :
    ∀ rs, validateNewRelations g rs = .ok () →
      ∀ r ∈ rs, (∃ e ∈ g.entities, e.name = r.from_) ∧
        ∃ e ∈ g.entities, e.name = r.to_ := by
  intro rs
  induction rs with
  | nil => intro _ r hr; cases hr
  | cons a rest ih =>
    intro h r hr
    rw [validateNewRelations] at h
    split at h
    · cases h
    · split at h
      · cases h
      · split at h
        · cases h
        · split at h
          · cases h
          · rename_i hfrom hto _ _
            rw [List.mem_cons] at hr
            rcases hr with hr | hr
            · subst hr
              exact ⟨by simpa using hfrom, by simpa using hto⟩
            · exact ih h r hr

/-- C4, amended: createRelations does check that both endpoints of every
appended relation exist at creation time, but setEntityStatus and
setEntityPriority append their has_status / has_priority relation with no
existence check on either endpoint: any valid value succeeds on any graph,
including one holding neither the subject nor the synthetic target. -/
theorem relation_endpoint_checks (g : KnowledgeGraph) (rs : List Relation)
    (g' : KnowledgeGraph) (h : createRelations g rs = .ok g') :
    (∀ r ∈ rs, (∃ e ∈ g.entities, e.name = r.from_) ∧
       ∃ e ∈ g.entities, e.name = r.to_) ∧
    (∀ g0 x v, v ∈ VALID_STATUS_VALUES →
       ∃ g1, setEntityStatus g0 x v = .ok g1) ∧
    (∀ g0 x v, v ∈ VALID_PRIORITY_VALUES →
       ∃ g1, setEntityPriority g0 x v = .ok g1) := by
  refine ⟨?_, ?_, ?_⟩
  · rw [createRelations] at h
    rcases hv : validateNewRelations g rs with m | u
    · rw [hv] at h; cases h
    · cases u; exact validateNewRelations_ok_endpoints g rs hv
  · intro g0 x v hv
    have hc : VALID_STATUS_VALUES.contains v = true := List.elem_iff.mpr hv
    exact ⟨_, by rw [setEntityStatus, hc]; rfl⟩
  · intro g0 x v hv
    have hc : VALID_PRIORITY_VALUES.contains v = true := List.elem_iff.mpr hv
    exact ⟨_, by rw [setEntityPriority, hc]; rfl⟩

/-- The graph produced by setEntityStatus on the empty graph: a has_status
relation both of whose endpoints name no entity. -/
def ghostG : KnowledgeGraph :=
  { entities := [],
    relations := [{ from_ := "ghost", to_ := "status:active",
                    relationType := "has_status" }] }

/-- C4 counterexample: setEntityStatus succeeds on the empty graph and
appends a relation although neither its from nor its to entity exists at
that moment. -/
theorem setEntityStatus_no_endpoint_check :
    setEntityStatus emptyG "ghost" "active" = .ok ghostG ∧
    ghostG.relations ≠ [] ∧
    ghostG.entities = [] :=
  ⟨rfl, by decide, rfl⟩

/-- Result of the witness call of createRelations below. -/
def paG2 : KnowledgeGraph := { entities := [entP, entA], relations := [relAP] }

/-- Witness for relation_endpoint_checks at a concrete successful
createRelations call. -/
theorem relation_endpoint_checks_witness :
    (∀ r ∈ [relAP], (∃ e ∈ paG.entities, e.name = r.from_) ∧
       ∃ e ∈ paG.entities, e.name = r.to_) ∧
    (∀ g0 x v, v ∈ VALID_STATUS_VALUES →
       ∃ g1, setEntityStatus g0 x v = .ok g1) ∧
    (∀ g0 x v, v ∈ VALID_PRIORITY_VALUES →
       ∃ g1, setEntityPriority g0 x v = .ok g1) :=
  relation_endpoint_checks paG [relAP] paG2 rfl

/-- pullEntity keeps the name set and entity list in sync, ensures the
pulled name is present when its entity exists in the graph, never touches
the relations, and only grows the name set. -/
theorem pullEntity_props (g : KnowledgeGraph) (acc : SearchAcc) (n : String)
    (hsync : acc.names = acc.entities.map (fun e => e.name))
    (hex : ∃ e ∈ g.entities, e.name = n) :
    (pullEntity g acc n).names = (pullEntity g acc n).entities.map
      (fun e => e.name) ∧
    n ∈ (pullEntity g acc n).names ∧
    (pullEntity g acc n).relations = acc.relations ∧
    ∀ m ∈ acc.names, m ∈ (pullEntity g acc n).names := by
  rw [pullEntity]
  split
  · rename_i hc
    exact ⟨hsync, by simpa using hc, rfl, fun m hm => hm⟩
  · rename_i hc
    rcases hf : g.entities.find? (fun e => e.name == n) with _ | e
    · exfalso
      obtain ⟨e, he, hen⟩ := hex
      rw [List.find?_eq_none] at hf
      exact hf e he (by simp [hen])
    · have hen : e.name = n := by simpa using List.find?_some hf
      rw [hf]
      refine ⟨?_, ?_, rfl, ?_⟩
      · simp [hsync, hen]
      · simp
      · intro m hm
        simp [hm]

/-- searchStep preserves the loop invariant of searchNodes: name set and
entity list stay in sync and every kept relation has both endpoints in the
name set, provided the processed relation's endpoints exist in the
graph. -/
theorem searchStep_inv (g : KnowledgeGraph) (acc : SearchAcc) (r : Relation)
    (hsync : acc.names = acc.entities.map (fun e => e.name))
    (hrel : ∀ r0 ∈ acc.relations, r0.from_ ∈ acc.names ∧ r0.to_ ∈ acc.names)
    (hfrom : ∃ e ∈ g.entities, e.name = r.from_)
    (hto : ∃ e ∈ g.entities, e.name = r.to_) :
    ((searchStep g acc r).names = (searchStep g acc r).entities.map
      (fun e => e.name)) ∧
    ∀ r0 ∈ (searchStep g acc r).relations,
      r0.from_ ∈ (searchStep g acc r).names ∧
      r0.to_ ∈ (searchStep g acc r).names := by
  rw [searchStep]
  split
  · exact ⟨hsync, hrel⟩
  · set acc1 : SearchAcc := { acc with relations := acc.relations ++ [r] } with hacc1
    have h1 := pullEntity_props g acc1 r.from_ hsync hfrom
    obtain ⟨s1, m1, rel1, grow1⟩ := h1
    have h2 := pullEntity_props g (pullEntity g acc1 r.from_) r.to_ s1 hto
    obtain ⟨s2, m2, rel2, grow2⟩ := h2
    refine ⟨s2, ?_⟩
    intro r0 hr0
    rw [rel2, rel1] at hr0
    rw [List.mem_append] at hr0
    rcases hr0 with hr0 | hr0
    · obtain ⟨hf, ht⟩ := hrel r0 hr0
      exact ⟨grow2 _ (grow1 _ hf), grow2 _ (grow1 _ ht)⟩
    · rw [List.mem_singleton] at hr0
      subst hr0
      exact ⟨grow2 _ m1, m2⟩

/-- The additional-relations fold of searchNodes preserves the loop
invariant when every processed relation comes from a graph whose relation
endpoints all exist. -/
theorem searchFold_inv (g : KnowledgeGraph)
    (hwf : ∀ r ∈ g.relations, (∃ e ∈ g.entities, e.name = r.from_) ∧
      ∃ e ∈ g.entities, e.name = r.to_) :
    ∀ rl : List Relation, (∀ r ∈ rl, r ∈ g.relations) → ∀ acc : SearchAcc,
      acc.names = acc.entities.map (fun e => e.name) →
      (∀ r0 ∈ acc.relations, r0.from_ ∈ acc.names ∧ r0.to_ ∈ acc.names) →
      ((rl.foldl (searchStep g) acc).names =
        (rl.foldl (searchStep g) acc).entities.map (fun e => e.name)) ∧
      ∀ r0 ∈ (rl.foldl (searchStep g) acc).relations,
        r0.from_ ∈ (rl.foldl (searchStep g) acc).names ∧
        r0.to_ ∈ (rl.foldl (searchStep g) acc).names := by
  intro rl
  induction rl with
  | nil => intro _ acc hsync hrel; exact ⟨hsync, hrel⟩
  | cons a rest ih =>
    intro hsub acc hsync hrel
    have ha := hsub a (List.mem_cons_self a rest)
    obtain ⟨hsync', hrel'⟩ := searchStep_inv g acc a hsync hrel
      (hwf a ha).1 (hwf a ha).2
    exact ih (fun r hr => hsub r (List.mem_cons_of_mem a hr))
      (searchStep g acc a) hsync' hrel'

/-- C5, amended: on a graph in which every relation's endpoints name
existing entities, searchNodes returns a self-consistent subgraph: both
endpoints of every returned relation are among the returned entities. -/
theorem searchNodes_self_consistent (g : KnowledgeGraph) (q : String)
    (hwf : ∀ r ∈ g.relations, (∃ e ∈ g.entities, e.name = r.from_) ∧
      ∃ e ∈ g.entities, e.name = r.to_) :
    ∀ r ∈ (searchNodes g q).relations,
      (∃ e ∈ (searchNodes g q).entities, e.name = r.from_) ∧
      ∃ e ∈ (searchNodes g q).entities, e.name = r.to_ := by
  intro r hr
  rw [searchNodes] at hr ⊢
  set lowerQuery := jsToLower q
  set matchingEntities := g.entities.filter (entityMatches lowerQuery) with hme
  set matchingNames := matchingEntities.map (fun e => e.name) with hmn
  set matchingRelations := g.relations.filter (fun r =>
    matchingNames.contains r.from_ && matchingNames.contains r.to_) with hmr
  set additionalRelations := g.relations.filter (relationMatches lowerQuery)
    with har
  have hrel0 : ∀ r0 ∈ (⟨matchingEntities, matchingNames,
      matchingRelations⟩ : SearchAcc).relations,
      r0.from_ ∈ matchingNames ∧ r0.to_ ∈ matchingNames := by
    intro r0 hr0
    have := (List.mem_filter.mp hr0).2
    rw [Bool.and_eq_true] at this
    exact ⟨List.elem_iff.mp this.1, List.elem_iff.mp this.2⟩
  have hsub : ∀ r0 ∈ additionalRelations, r0 ∈ g.relations :=
    fun r0 h0 => (List.mem_filter.mp h0).1
  obtain ⟨hsyncF, hrelF⟩ := searchFold_inv g hwf additionalRelations hsub
    ⟨matchingEntities, matchingNames, matchingRelations⟩ rfl hrel0
  obtain ⟨hf, ht⟩ := hrelF r hr
  rw [hsyncF] at hf ht
  constructor
  · obtain ⟨e, he, hen⟩ := List.mem_map.mp hf
    exact ⟨e, he, hen⟩
  · obtain ⟨e, he, hen⟩ := List.mem_map.mp ht
    exact ⟨e, he, hen⟩

/-- A graph holding one dangling relation and no entities (such a state is
reachable: setEntityStatus writes relations without endpoint checks, and
loadGraph accepts any persisted file). -/
def danglingG : KnowledgeGraph :=
  { entities := [],
    relations := [{ from_ := "A", to_ := "B", relationType := "depends_on" }] }

/-- C5 counterexample: on the dangling graph the query matches the
relation type, the relation is returned, but neither endpoint entity can
be pulled in, so the returned subgraph is not self-consistent. -/
theorem searchNodes_dangling_counterexample :
    (searchNodes danglingG "depends").relations =
      [{ from_ := "A", to_ := "B", relationType := "depends_on" }] ∧
    (searchNodes danglingG "depends").entities = [] := by
  constructor <;> rfl

/-- Witness for searchNodes_self_consistent on a concrete well-formed
graph, instantiated at the returned relation A-part_of-P. -/
theorem searchNodes_self_consistent_witness :
    (∃ e ∈ (searchNodes paG2 "part").entities, e.name = relAP.from_) ∧
    ∃ e ∈ (searchNodes paG2 "part").entities, e.name = relAP.to_ :=
  searchNodes_self_consistent paG2 "part" (by decide) relAP (by decide)

/-- When the start date does not parse (or is absent or empty), the
schedule state is neutral: progress 0 and not behind schedule. -/
theorem scheduleState_neutral (parseTime : String → Option Rat) (now : Rat)
    (tcr : Rat) (startDate endDate : Option String)
    (hstart : ∀ s, startDate = some s → parseTime s = none) :
    scheduleState parseTime now tcr startDate endDate = (0, false) := by
  rcases startDate with _ | s
  · rfl
  · rcases endDate with _ | e
    · rfl
    · rw [scheduleState]
      split
      · rw [hstart s rfl]
      · rfl

/-- C8: on a project with zero part_of-linked tasks, milestones, issues
and risks, and no parseable StartDate, every one of the eight neutral
sub-factors is exactly 50, the ninth schedule factor is 70, and the
aggregate is round(470 / 9) = 52 with category at_risk. -/
theorem getProjectHealth_neutral_score (parse : String → Option Rat)
    (now : Rat) (g : KnowledgeGraph) (pname : String) (proj : Entity)
    (hfind : g.entities.find? (fun e =>
      e.name == pname && e.entityType == "project") = some proj)
    (htasks : getProjectEntities g pname "task" = [])
    (hmile : getProjectEntities g pname "milestone" = [])
    (hiss : getProjectEntities g pname "issue" = [])
    (hrisk : getProjectEntities g pname "risk" = [])
    (hstart : ∀ s, getObsField proj.observations "StartDate:" = some s →
      parse s = none) :
    projectHealthFactors g pname false =
      [50, 50, 50, 50, 50, 50, 50, 50, 70] ∧
    ∃ r, getProjectHealth parse now g pname = .ok r ∧
      r.healthScore = 52 ∧ r.healthStatus = "at_risk" := by
  have hfac : projectHealthFactors g pname false =
      [50, 50, 50, 50, 50, 50, 50, 50, 70] := by
    rw [projectHealthFactors, htasks, hmile, hiss, hrisk]
    rfl
  refine ⟨hfac, ?_⟩
  rw [getProjectHealth, hfind]
  simp only
  rw [htasks,
    scheduleState_neutral parse now _ _ _ hstart, hfac]
  have h52 : jsRoundQ
      ((List.foldl (fun a b => a + b) 0
        [(50 : Rat), 50, 50, 50, 50, 50, 50, 50, 70]) /
       (([(50 : Rat), 50, 50, 50, 50, 50, 50, 50, 70].length : Nat) : Rat))
      = 52 := by
    norm_num [jsRoundQ]
  rw [h52]
  exact ⟨_, rfl, rfl, rfl⟩

/-- A graph holding only the project P. -/
def pOnlyG : KnowledgeGraph := { entities := [entP], relations := [] }

/-- Witness for getProjectHealth_neutral_score on the bare project P. -/
theorem getProjectHealth_neutral_score_witness :
    projectHealthFactors pOnlyG "P" false =
      [50, 50, 50, 50, 50, 50, 50, 50, 70] ∧
    ∃ r, getProjectHealth (fun _ => none) 0 pOnlyG "P" = .ok r ∧
      r.healthScore = 52 ∧ r.healthStatus = "at_risk" :=
  getProjectHealth_neutral_score (fun _ => none) 0 pOnlyG "P" entP
    rfl rfl rfl rfl rfl (fun _ _ => rfl)

/-- A project with one resource whose Capacity observation does not parse
as a number, and one in-progress task tied to it by a requires relation
(such relations can be present in a loaded graph even though
createRelations rejects them). -/
def capNaG : KnowledgeGraph :=
  { entities :=
      [entP,
       { name := "R", entityType := "resource",
         observations := ["Capacity: n/a"] },
       { name := "T", entityType := "task",
         observations := ["Status: in_progress"] }],
    relations :=
      [{ from_ := "R", to_ := "P", relationType := "part_of" },
       { from_ := "T", to_ := "R", relationType := "requires" }] }

/-- C9 counterexample: with a nonempty but unparseable Capacity value the
truthy-capacity branch runs, parseInt yields NaN and the reported usage
percentage is NaN, not the 50 the claim assigns to this case. -/
theorem getResourceAllocation_unparseable_capacity :
    (getResourceAllocation (fun _ => none) capNaG "P" none).toOption.map
      (fun res => res.resources.map (fun a =>
        (a.usage.totalTasks, a.usage.inProgressTasks,
         a.usage.usagePercentage))) = some [(1, 1, JSNum.nan)] ∧
    JSNum.nan ≠ JSNum.val 50 :=
  ⟨rfl, by decide⟩


/-- Case analysis on usagePercentageOf: the formula of the claim runs
exactly when the capacity field is present, nonempty and parses to a
nonzero integer; a missing or empty field falls back to 50/0; a nonempty
unparseable field produces NaN. -/
theorem usagePercentageOf_cases (cap : Option String) (tt ip : Nat) :
    (cap = none ∨ cap = some "" →
      usagePercentageOf cap tt ip =
        (if tt > 0 then JSNum.val 50 else JSNum.val 0)) ∧
    (∀ c n, cap = some c → c ≠ "" → jsParseInt c = some n → n ≠ 0 →
      usagePercentageOf cap tt ip =
        JSNum.val (min 100 ((jsRoundQ ((ip : Rat) * 100 / (n : Rat))) : Rat))) ∧
    (∀ c, cap = some c → c ≠ "" → jsParseInt c = none →
      usagePercentageOf cap tt ip = JSNum.nan) := by
  refine ⟨?_, ?_, ?_⟩
  · rintro (hc | hc) <;> subst hc
    · rfl
    · rfl
  · intro c n hc hne hp hn0
    subst hc
    rw [usagePercentageOf]
    have hcne : (c != "") = true := by simpa using hne
    rw [if_pos hcne, hp]
    have hdiv : jsDiv (.val (ip : Rat)) (jsOfParseInt (some n)) =
        .val ((ip : Rat) / (n : Rat)) := by
      show jsDiv (.val (ip : Rat)) (.val (n : Rat)) = _
      rw [jsDiv]
      rw [if_neg (by exact_mod_cast hn0)]
    rw [hdiv]
    show jsMin (.val 100) (.val ((jsRoundQ ((ip : Rat) / (n : Rat) * 100)) : Rat)) = _
    rw [jsMin, div_mul_eq_mul_div]
  · intro c hc hne hp
    subst hc
    rw [usagePercentageOf]
    have hcne : (c != "") = true := by simpa using hne
    rw [if_pos hcne, hp]
    rfl

/-- Every allocation reported by a successful getResourceAllocation is the
processResource image of some entity. -/
theorem getResourceAllocation_ok_mem (parse : String → Option Rat)
    (g : KnowledgeGraph) (p : String) (rn : Option String) (res : RAResult)
    (h : getResourceAllocation parse g p rn = .ok res) :
    ∀ alloc ∈ res.resources, ∃ resource,
      alloc = processResource parse g resource := by
  rw [getResourceAllocation.eq_def] at h
  rcases hf : g.entities.find? (fun e =>
      e.name == p && e.entityType == "project") with _ | project
  · rw [hf] at h; cases h
  · rw [hf] at h
    simp only at h
    split at h
    · cases h
    · cases h
      intro alloc halloc
      rw [mem_jsSort] at halloc
      obtain ⟨resource, _, hres⟩ := List.mem_map.mp halloc
      exact ⟨resource, hres.symm⟩

/-- C9, amended: for every resource reported by getResourceAllocation the
usage percentage is min(100, round(inProgress / capacity * 100)) whenever
the Capacity observation parses to a nonzero integer, 50 or 0 whenever the
observation is absent or empty, and NaN (not 50) whenever the observation
is nonempty but does not parse. -/
theorem getResourceAllocation_usage_formula (parse : String → Option Rat)
    (g : KnowledgeGraph) (p : String) (rn : Option String) (res : RAResult)
    (h : getResourceAllocation parse g p rn = .ok res) :
    ∀ alloc ∈ res.resources,
      (alloc.info.capacity = none ∨ alloc.info.capacity = some "" →
        alloc.usage.usagePercentage =
          (if alloc.usage.totalTasks > 0 then JSNum.val 50 else JSNum.val 0)) ∧
      (∀ c n, alloc.info.capacity = some c → c ≠ "" →
        jsParseInt c = some n → n ≠ 0 →
        alloc.usage.usagePercentage =
          JSNum.val (min 100
            ((jsRoundQ ((alloc.usage.inProgressTasks : Rat) * 100 /
              (n : Rat))) : Rat))) ∧
      (∀ c, alloc.info.capacity = some c → c ≠ "" → jsParseInt c = none →
        alloc.usage.usagePercentage = JSNum.nan) := by
  intro alloc halloc
  obtain ⟨resource, rfl⟩ :=
    getResourceAllocation_ok_mem parse g p rn res h alloc halloc
  have hfields : (processResource parse g resource).usage.usagePercentage =
      usagePercentageOf ((processResource parse g resource).info.capacity)
        ((processResource parse g resource).usage.totalTasks)
        ((processResource parse g resource).usage.inProgressTasks) := rfl
  obtain ⟨h1, h2, h3⟩ := usagePercentageOf_cases
    ((processResource parse g resource).info.capacity)
    ((processResource parse g resource).usage.totalTasks)
    ((processResource parse g resource).usage.inProgressTasks)
  refine ⟨fun hc => ?_, fun c n hc hne hp hn0 => ?_, fun c hc hne hp => ?_⟩
  · rw [hfields]; exact h1 hc
  · rw [hfields]; exact h2 c n hc hne hp hn0
  · rw [hfields]; exact h3 c hc hne hp

/-- A project with one resource of capacity 4 and one in-progress task
requiring it. -/
def cap4G : KnowledgeGraph :=
  { entities :=
      [entP,
       { name := "R", entityType := "resource",
         observations := ["Capacity: 4"] },
       { name := "T", entityType := "task",
         observations := ["Status: in_progress"] }],
    relations :=
      [{ from_ := "R", to_ := "P", relationType := "part_of" },
       { from_ := "T", to_ := "R", relationType := "requires" }] }

/-- The allocation result on cap4G (total, for the witness below). -/
def cap4Res : RAResult :=
  (getResourceAllocation (fun _ => none) cap4G "P" none).toOption.getD
    { project := entP, resources := [],
      summary := { totalResources := 0, overallocatedCount := 0,
                   underutilizedCount := 0 },
      overallocatedResources := [], underutilizedResources := [] }

/-- The single allocation reported on cap4G (for the witness below). -/
def cap4Alloc : ResourceAlloc :=
  processResource (fun _ => none) cap4G
    { name := "R", entityType := "resource",
      observations := ["Capacity: 4"] }

/-- Witness for getResourceAllocation_usage_formula on cap4G, instantiated
at its single allocation with the parsed capacity 4. -/
theorem getResourceAllocation_usage_formula_witness :
    cap4Alloc.usage.usagePercentage =
      JSNum.val (min 100
        ((jsRoundQ ((cap4Alloc.usage.inProgressTasks : Rat) * 100 /
          ((4 : Int) : Rat))) : Rat)) :=
  (getResourceAllocation_usage_formula (fun _ => none) cap4G "P" none
    cap4Res rfl cap4Alloc
    (by rw [show cap4Res.resources = [cap4Alloc] from rfl]
        exact List.mem_singleton_self _)).2.1 "4" 4 rfl (by decide)
    (by decide) (by decide)

/-- A project whose only relation is a valid part_of, with a resource
whose Capacity observation is nonempty but unparseable. -/
def capXG : KnowledgeGraph :=
  { entities :=
      [entP,
       { name := "R", entityType := "resource",
         observations := ["Capacity: x"] }],
    relations := [{ from_ := "R", to_ := "P", relationType := "part_of" }] }

/-- C10 counterexample: on a graph all of whose relations carry valid
types, the resource's assigned tasks, team members and in-progress count
are empty and zero as the claim says, but the usage percentage is NaN, not
0, because the nonempty capacity string enters the formula and parseInt
fails. -/
theorem resource_usage_nan_counterexample :
    (∀ r ∈ capXG.relations, r.relationType ∈ VALID_RELATION_TYPES) ∧
    (getResourceAllocation (fun _ => none) capXG "P" none).toOption.map
      (fun res => res.resources.map (fun a =>
        (a.assignedTasks, a.teamMembers, a.usage.inProgressTasks,
         a.usage.usagePercentage))) = some [([], [], 0, JSNum.nan)] ∧
    JSNum.nan ≠ JSNum.val 0 :=
  ⟨by decide, rfl, by decide⟩

/-- With no relation of type requires in the graph, the assigned-task scan
collects nothing. -/
theorem tasksRequiringResource_nil (g : KnowledgeGraph) (rname : String)
    (hno : ∀ r ∈ g.relations, r.relationType ≠ "requires") :
    tasksRequiringResource g rname = [] := by
  rw [tasksRequiringResource]
  suffices hgen : ∀ l : List Relation, (∀ r ∈ l, r.relationType ≠ "requires") →
      ∀ acc : List Entity, (l.foldl (fun acc r =>
        if r.relationType == "requires" && r.to_ == rname then
          match g.entities.find? (fun e =>
              e.name == r.from_ && e.entityType == "task") with
          | some t => acc ++ [t]
          | none => acc
        else acc) acc) = acc by
    exact hgen g.relations hno []
  intro l
  induction l with
  | nil => intro _ acc; rfl
  | cons a rest ih =>
    intro hl acc
    rw [List.foldl_cons]
    have ha : (a.relationType == "requires") = false := by
      simpa using hl a (List.mem_cons_self a rest)
    rw [ha]
    simp only [Bool.false_and, Bool.false_eq_true, if_false]
    exact ih (fun r hr => hl r (List.mem_cons_of_mem a hr)) acc

/-- With no relation of type uses in the graph, the team-member scan
collects nothing. -/
theorem teamMembersUsingResource_nil (g : KnowledgeGraph) (rname : String)
    (hno : ∀ r ∈ g.relations, r.relationType ≠ "uses") :
    teamMembersUsingResource g rname = [] := by
  rw [teamMembersUsingResource]
  suffices hgen : ∀ l : List Relation, (∀ r ∈ l, r.relationType ≠ "uses") →
      ∀ acc : List Entity, (l.foldl (fun acc r =>
        if r.relationType == "uses" && r.to_ == rname then
          match g.entities.find? (fun e =>
              e.name == r.from_ && e.entityType == "teamMember") with
          | some t => acc ++ [t]
          | none => acc
        else acc) acc) = acc by
    exact hgen g.relations hno []
  intro l
  induction l with
  | nil => intro _ acc; rfl
  | cons a rest ih =>
    intro hl acc
    rw [List.foldl_cons]
    have ha : (a.relationType == "uses") = false := by
      simpa using hl a (List.mem_cons_self a rest)
    rw [ha]
    simp only [Bool.false_and, Bool.false_eq_true, if_false]
    exact ih (fun r hr => hl r (List.mem_cons_of_mem a hr)) acc

/-- With no assigned tasks, the usage percentage by cases on the capacity
field: 0 when the field is absent, empty, or parses to a nonzero integer
(0 / n rounds to 0); NaN when the field is nonempty and unparseable
(0 / NaN) or parses to 0 (0 / 0). -/
theorem usagePercentageOf_zero (cap : Option String) :
    (cap = none ∨ cap = some "" →
      usagePercentageOf cap 0 0 = JSNum.val 0) ∧
    (∀ c n, cap = some c → c ≠ "" → jsParseInt c = some n → n ≠ 0 →
      usagePercentageOf cap 0 0 = JSNum.val 0) ∧
    (∀ c, cap = some c → c ≠ "" → jsParseInt c = none →
      usagePercentageOf cap 0 0 = JSNum.nan) ∧
    (∀ c, cap = some c → c ≠ "" → jsParseInt c = some 0 →
      usagePercentageOf cap 0 0 = JSNum.nan) := by
  refine ⟨?_, ?_, ?_, ?_⟩
  · rintro (hc | hc) <;> subst hc <;> rfl
  · intro c n hc hne hp hn0
    subst hc
    rw [usagePercentageOf]
    have hcne : (c != "") = true := by simpa using hne
    rw [if_pos hcne, hp]
    have hdiv : jsDiv (.val ((0 : Nat) : Rat)) (jsOfParseInt (some n)) =
        .val 0 := by
      show jsDiv (.val ((0 : Nat) : Rat)) (.val (n : Rat)) = _
      rw [jsDiv]
      rw [if_neg (by exact_mod_cast hn0)]
      norm_num
    rw [hdiv]
    show jsMin (.val 100) (.val ((jsRoundQ ((0 : Rat) * 100)) : Rat)) =
      JSNum.val 0
    have h0 : jsRoundQ ((0 : Rat) * 100) = 0 := by norm_num [jsRoundQ]
    rw [h0, jsMin]
    norm_num
  · intro c hc hne hp
    subst hc
    rw [usagePercentageOf]
    have hcne : (c != "") = true := by simpa using hne
    rw [if_pos hcne, hp]
    rfl
  · intro c hc hne hp
    subst hc
    rw [usagePercentageOf]
    have hcne : (c != "") = true := by simpa using hne
    rw [if_pos hcne, hp]
    have hdiv : jsDiv (.val ((0 : Nat) : Rat)) (jsOfParseInt (some 0)) =
        .nan := by
      show jsDiv (.val ((0 : Nat) : Rat)) (.val ((0 : Int) : Rat)) = _
      rw [jsDiv]
      norm_num
    rw [hdiv]
    rfl

/-- On a graph without requires / uses relations, processResource reports
empty assignments, no team members, zero in-progress tasks, and a usage
percentage fixed by the capacity field: 0 when it is absent, empty or
parses to a nonzero integer; NaN when it is nonempty and unparseable or
parses to 0. -/
theorem processResource_no_assignments (parse : String → Option Rat)
    (g : KnowledgeGraph) (resource : Entity)
    (hreq : ∀ r ∈ g.relations, r.relationType ≠ "requires")
    (huse : ∀ r ∈ g.relations, r.relationType ≠ "uses") :
    (processResource parse g resource).assignedTasks = [] ∧
    (processResource parse g resource).teamMembers = [] ∧
    (processResource parse g resource).usage.inProgressTasks = 0 ∧
    ((processResource parse g resource).info.capacity = none ∨
        (processResource parse g resource).info.capacity = some "" →
      (processResource parse g resource).usage.usagePercentage =
        JSNum.val 0) ∧
    (∀ c n, (processResource parse g resource).info.capacity = some c →
        c ≠ "" → jsParseInt c = some n → n ≠ 0 →
      (processResource parse g resource).usage.usagePercentage =
        JSNum.val 0) ∧
    (∀ c, (processResource parse g resource).info.capacity = some c →
        c ≠ "" → jsParseInt c = none →
      (processResource parse g resource).usage.usagePercentage =
        JSNum.nan) ∧
    (∀ c, (processResource parse g resource).info.capacity = some c →
        c ≠ "" → jsParseInt c = some 0 →
      (processResource parse g resource).usage.usagePercentage =
        JSNum.nan) := by
  have htr := tasksRequiringResource_nil g resource.name hreq
  have htm := teamMembersUsingResource_nil g resource.name huse
  have hu0 : (processResource parse g resource).usage.usagePercentage =
      usagePercentageOf (getObsField resource.observations "Capacity:")
        0 0 := by
    have hu : (processResource parse g resource).usage.usagePercentage =
        usagePercentageOf (getObsField resource.observations "Capacity:")
          ((jsSort (dueDateLe parse)
            (tasksRequiringResource g resource.name)).length)
          ((((groupByStatus (jsSort (dueDateLe parse)
            (tasksRequiringResource g resource.name))).find?
              (fun p => p.1 == "in_progress")).map
                (fun p => p.2.length)).getD 0) := rfl
    rw [hu, htr]
    rfl
  obtain ⟨z1, z2, z3, z4⟩ :=
    usagePercentageOf_zero (getObsField resource.observations "Capacity:")
  refine ⟨?_, ?_, ?_, ?_, ?_, ?_, ?_⟩
  · show jsSort (dueDateLe parse) (tasksRequiringResource g resource.name) = []
    rw [htr]
    rfl
  · exact htm
  · show (((groupByStatus (jsSort (dueDateLe parse)
      (tasksRequiringResource g resource.name))).find?
        (fun p => p.1 == "in_progress")).map (fun p => p.2.length)).getD 0 = 0
    rw [htr]
    rfl
  · intro hc
    rw [hu0]
    exact z1 hc
  · intro c n hc hne hp hn0
    rw [hu0]
    exact z2 c n hc hne hp hn0
  · intro c hc hne hp
    rw [hu0]
    exact z3 c hc hne hp
  · intro c hc hne hp
    rw [hu0]
    exact z4 c hc hne hp

/-- C10, amended: requires and uses are outside VALID_RELATION_TYPES, so
createRelations rejects every batch containing a relation of either type;
consequently, on a graph all of whose relations carry valid types, every
resource reported by getResourceAllocation has no assigned tasks, no team
members and zero in-progress tasks, and its usage percentage is 0 when the
Capacity observation is absent, empty or parses to a nonzero integer, but
NaN when it is nonempty and unparseable (0 / NaN) or parses to 0
(0 / 0). -/
theorem resource_relation_types_rejected :
    ("requires" ∉ VALID_RELATION_TYPES ∧ "uses" ∉ VALID_RELATION_TYPES) ∧
    (∀ g rs, (∃ r ∈ rs, r.relationType = "requires" ∨
        r.relationType = "uses") →
      ∃ msg, createRelations g rs = .error msg) ∧
    (∀ parse g p rn res,
      (∀ r ∈ g.relations, r.relationType ∈ VALID_RELATION_TYPES) →
      getResourceAllocation parse g p rn = .ok res →
      ∀ alloc ∈ res.resources,
        alloc.assignedTasks = [] ∧ alloc.teamMembers = [] ∧
        alloc.usage.inProgressTasks = 0 ∧
        (alloc.info.capacity = none ∨ alloc.info.capacity = some "" →
          alloc.usage.usagePercentage = JSNum.val 0) ∧
        (∀ c n, alloc.info.capacity = some c → c ≠ "" →
          jsParseInt c = some n → n ≠ 0 →
          alloc.usage.usagePercentage = JSNum.val 0) ∧
        (∀ c, alloc.info.capacity = some c → c ≠ "" → jsParseInt c = none →
          alloc.usage.usagePercentage = JSNum.nan) ∧
        (∀ c, alloc.info.capacity = some c → c ≠ "" → jsParseInt c = some 0 →
          alloc.usage.usagePercentage = JSNum.nan)) := by
  refine ⟨⟨by decide, by decide⟩, ?_, ?_⟩
  · intro g rs ⟨r, hr, hty⟩
    obtain ⟨msg, hmsg⟩ := validateNewRelations_error_of_invalid g rs
      ⟨r, hr, Or.inr (Or.inr (Or.inl (by
        rcases hty with hty | hty <;> rw [hty] <;> decide)))⟩
    exact ⟨msg, by rw [createRelations, hmsg]⟩
  · intro parse g p rn res hvalid h alloc halloc
    obtain ⟨resource, rfl⟩ :=
      getResourceAllocation_ok_mem parse g p rn res h alloc halloc
    have hreq : ∀ r ∈ g.relations, r.relationType ≠ "requires" := by
      intro r hr hcon
      have := hvalid r hr
      rw [hcon] at this
      exact absurd this (by decide)
    have huse : ∀ r ∈ g.relations, r.relationType ≠ "uses" := by
      intro r hr hcon
      have := hvalid r hr
      rw [hcon] at this
      exact absurd this (by decide)
    exact processResource_no_assignments parse g resource hreq huse

/-- The allocation result on capXG (total, for the witness below). -/
def capXRes : RAResult :=
  (getResourceAllocation (fun _ => none) capXG "P" none).toOption.getD
    { project := entP, resources := [],
      summary := { totalResources := 0, overallocatedCount := 0,
                   underutilizedCount := 0 },
      overallocatedResources := [], underutilizedResources := [] }

/-- The single allocation reported on capXG (for the witness below). -/
def capXAlloc : ResourceAlloc :=
  processResource (fun _ => none) capXG
    { name := "R", entityType := "resource",
      observations := ["Capacity: x"] }

/-- Witness for resource_relation_types_rejected, applying its batch
rejection and its allocation consequence at concrete inputs: on capXG the
single allocation has empty assignments and, its capacity field being the
nonempty unparseable x, a NaN usage percentage. -/
theorem resource_relation_types_rejected_witness :
    (∃ msg, createRelations paG
      [{ from_ := "T", to_ := "R", relationType := "requires" }] =
        .error msg) ∧
    capXAlloc.assignedTasks = [] ∧ capXAlloc.teamMembers = [] ∧
    capXAlloc.usage.inProgressTasks = 0 ∧
    capXAlloc.usage.usagePercentage = JSNum.nan :=
  have h := resource_relation_types_rejected.2.2 (fun _ => none) capXG "P"
    none capXRes (by decide) rfl capXAlloc
    (by rw [show capXRes.resources = [capXAlloc] from rfl]
        exact List.mem_singleton_self _)
  ⟨resource_relation_types_rejected.2.1 paG
      [{ from_ := "T", to_ := "R", relationType := "requires" }]
      ⟨{ from_ := "T", to_ := "R", relationType := "requires" }, by decide,
        Or.inl rfl⟩,
   h.1, h.2.1, h.2.2.1,
   h.2.2.2.2.2.1 "x" rfl (by decide) (by decide)⟩

/-- The tasks of the diamond dependency graph. -/
def taskB : Entity := { name := "B", entityType := "task", observations := [] }

/-- Task C of the diamond. -/
def taskC : Entity := { name := "C", entityType := "task", observations := [] }

/-- Task D of the diamond. -/
def taskD : Entity := { name := "D", entityType := "task", observations := [] }

/-- A depends_on relation between two named tasks. -/
def depRel (a b : String) : Relation :=
  { from_ := a, to_ := b, relationType := "depends_on" }

/-- The diamond: B and C depend on A, D depends on B and on C. -/
def diamondG : KnowledgeGraph :=
  { entities := [entA, taskB, taskC, taskD],
    relations := [depRel "B" "A", depRel "C" "A",
                  depRel "D" "B", depRel "D" "C"] }

/-- C7: from every task of the diamond, getTaskDependencies at the default
depth 2 computes a critical path of length 3 from A to D whose middle
element is B or C. -/
theorem calculateCriticalPath_diamond :
    (∃ cp, (getTaskDependencies diamondG "A" 2).toOption.map
        (fun r => r.criticalPath) = some cp ∧
      cp.length = 3 ∧ cp.get? 0 = some "A" ∧ cp.get? 2 = some "D" ∧
      (cp.get? 1 = some "B" ∨ cp.get? 1 = some "C")) ∧
    (∃ cp, (getTaskDependencies diamondG "B" 2).toOption.map
        (fun r => r.criticalPath) = some cp ∧
      cp.length = 3 ∧ cp.get? 0 = some "A" ∧ cp.get? 2 = some "D" ∧
      (cp.get? 1 = some "B" ∨ cp.get? 1 = some "C")) ∧
    (∃ cp, (getTaskDependencies diamondG "C" 2).toOption.map
        (fun r => r.criticalPath) = some cp ∧
      cp.length = 3 ∧ cp.get? 0 = some "A" ∧ cp.get? 2 = some "D" ∧
      (cp.get? 1 = some "B" ∨ cp.get? 1 = some "C")) ∧
    (∃ cp, (getTaskDependencies diamondG "D" 2).toOption.map
        (fun r => r.criticalPath) = some cp ∧
      cp.length = 3 ∧ cp.get? 0 = some "A" ∧ cp.get? 2 = some "D" ∧
      (cp.get? 1 = some "B" ∨ cp.get? 1 = some "C")) :=
  ⟨⟨["A", "B", "D"], rfl, rfl, rfl, rfl, Or.inl rfl⟩,
   ⟨["A", "B", "D"], rfl, rfl, rfl, rfl, Or.inl rfl⟩,
   ⟨["A", "C", "D"], rfl, rfl, rfl, rfl, Or.inr rfl⟩,
   ⟨["A", "B", "D"], rfl, rfl, rfl, rfl, Or.inl rfl⟩⟩

/-- The two-task dependency cycle: A depends on B and B depends on A. -/
def cycleG : KnowledgeGraph :=
  { entities := [entA, taskB],
    relations := [depRel "A" "B", depRel "B" "A"] }

/-- Monotone evolution of the dependency map: every stored node keeps its
task and only gains dependsOn / dependedOnBy entries (the expansion only
inserts fresh nodes, bumps levels and appends to those two lists). -/
def dmPres (m m' : DepMap) : Prop :=
  ∀ k node, dmLookup m k = some node → ∃ node', dmLookup m' k = some node' ∧
    node'.task = node.task ∧
    (∀ x ∈ node.dependsOn, x ∈ node'.dependsOn) ∧
    (∀ x ∈ node.dependedOnBy, x ∈ node'.dependedOnBy)

/-- Both tasks of the cycle are present in the map. -/
def dmHasAB (m : DepMap) : Prop :=
  (∃ n, dmLookup m "A" = some n) ∧ (∃ n, dmLookup m "B" = some n)

/-- dmPres is reflexive. -/
theorem dmPres_refl (m : DepMap) : dmPres m m :=
  fun _ node h => ⟨node, h, rfl, fun _ hx => hx, fun _ hx => hx⟩

/-- dmPres is transitive. -/
theorem dmPres_trans {m1 m2 m3 : DepMap} (h12 : dmPres m1 m2)
    (h23 : dmPres m2 m3) : dmPres m1 m3 := by
  intro k node h
  obtain ⟨n2, h2, ht2, hd2, hb2⟩ := h12 k node h
  obtain ⟨n3, h3, ht3, hd3, hb3⟩ := h23 k n2 h2
  exact ⟨n3, h3, ht3.trans ht2, fun x hx => hd3 x (hd2 x hx),
    fun x hx => hb3 x (hb2 x hx)⟩

/-- dmPres transports presence of both cycle keys. -/
theorem dmHasAB_of_pres {m m' : DepMap} (h : dmPres m m') (hAB : dmHasAB m) :
    dmHasAB m' := by
  obtain ⟨⟨na, ha⟩, ⟨nb, hb⟩⟩ := hAB
  obtain ⟨na', ha', _, _, _⟩ := h "A" na ha
  obtain ⟨nb', hb', _, _, _⟩ := h "B" nb hb
  exact ⟨⟨na', ha'⟩, ⟨nb', hb'⟩⟩

/-- Unfolding dmLookup over a cons cell. -/
theorem dmLookup_cons (x : String × DepNode) (l : DepMap) (k : String) :
    dmLookup (x :: l) k = if x.1 == k then some x.2 else dmLookup l k := by
  rcases h : (x.1 == k) with _ | _
  · rw [dmLookup,
      @List.find?_cons_of_neg _ (fun p => p.1 == k) x l (by simp [h])]
    rfl
  · rw [dmLookup, @List.find?_cons_of_pos _ (fun p => p.1 == k) x l h]
    rfl

/-- Appending a fresh entry does not disturb existing lookups. -/
theorem dmLookup_insert_pres (m : DepMap) (k : String) (v : DepNode)
    (k' : String) (node : DepNode) (h : dmLookup m k' = some node) :
    dmLookup (dmInsert m k v) k' = some node := by
  rw [dmLookup] at h
  rw [dmInsert, dmLookup, List.find?_append]
  rcases hf : m.find? (fun p => p.1 == k') with _ | pair
  · rw [hf] at h; cases h
  · rw [hf] at h
    rw [hf]
    exact h

/-- dmInsert preserves dmPres. -/
theorem dmPres_insert (m : DepMap) (k : String) (v : DepNode) :
    dmPres m (dmInsert m k v) :=
  fun k' node h => ⟨node, dmLookup_insert_pres m k v k' node h, rfl,
    fun _ hx => hx, fun _ hx => hx⟩

/-- Looking up an absent key after dmInsert of that key finds the new
node. -/
theorem dmLookup_insert_self (m : DepMap) (k : String) (v : DepNode)
    (h : dmLookup m k = none) : dmLookup (dmInsert m k v) k = some v := by
  rw [dmLookup] at h
  rcases hf : m.find? (fun p => p.1 == k) with _ | pair
  · rw [dmInsert, dmLookup, List.find?_append, hf]
    simp [List.find?]
  · rw [hf] at h; cases h

/-- Lookup at the updated key applies the update. -/
theorem dmLookup_update_self (m : DepMap) (k : String)
    (f : DepNode → DepNode) :
    dmLookup (dmUpdate m k f) k = (dmLookup m k).map f := by
  induction m with
  | nil => rfl
  | cons p rest ih =>
    rcases hp : (p.1 == k) with _ | _
    · have hstep : dmUpdate (p :: rest) k f = p :: dmUpdate rest k f := by
        rw [dmUpdate, List.map_cons]
        simp [hp, dmUpdate]
      rw [hstep, dmLookup_cons, dmLookup_cons, hp]
      simp only [Bool.false_eq_true, if_false]
      exact ih
    · have hstep : dmUpdate (p :: rest) k f =
          (p.1, f p.2) :: dmUpdate rest k f := by
        rw [dmUpdate, List.map_cons]
        simp [hp, dmUpdate]
      rw [hstep, dmLookup_cons, dmLookup_cons]
      simp only [hp, if_true]
      rfl

/-- Lookup at a different key is unchanged by dmUpdate. -/
theorem dmLookup_update_ne (m : DepMap) (k : String) (f : DepNode → DepNode)
    (k' : String) (hk : k' ≠ k) :
    dmLookup (dmUpdate m k f) k' = dmLookup m k' := by
  induction m with
  | nil => rfl
  | cons p rest ih =>
    rcases hp : (p.1 == k) with _ | _
    · have hstep : dmUpdate (p :: rest) k f = p :: dmUpdate rest k f := by
        rw [dmUpdate, List.map_cons]
        simp [hp, dmUpdate]
      rw [hstep, dmLookup_cons, dmLookup_cons]
      split
      · rfl
      · exact ih
    · have hstep : dmUpdate (p :: rest) k f =
          (p.1, f p.2) :: dmUpdate rest k f := by
        rw [dmUpdate, List.map_cons]
        simp [hp, dmUpdate]
      have hpk : p.1 = k := by simpa using hp
      have hne : (p.1 == k') = false := by
        subst hpk
        simpa using fun hcon => hk hcon.symm
      rw [hstep, dmLookup_cons, dmLookup_cons]
      simp only [hne, Bool.false_eq_true, if_false]
      exact ih

/-- dmUpdate with a node-preserving function preserves dmPres. -/
theorem dmPres_update (m : DepMap) (k : String) (f : DepNode → DepNode)
    (hf : ∀ n, (f n).task = n.task ∧
      (∀ x ∈ n.dependsOn, x ∈ (f n).dependsOn) ∧
      (∀ x ∈ n.dependedOnBy, x ∈ (f n).dependedOnBy)) :
    dmPres m (dmUpdate m k f) := by
  intro k' node h
  by_cases hk : k' = k
  · subst hk
    rw [dmLookup_update_self, h]
    exact ⟨f node, rfl, (hf node).1, (hf node).2.1, (hf node).2.2⟩
  · rw [dmLookup_update_ne m k f k' hk]
    exact ⟨node, h, rfl, fun _ hx => hx, fun _ hx => hx⟩

/-- Any single relation step of the cycle expansion succeeds and evolves
the map monotonically, as long as the frame's own node is present, both
cycle tasks are in the map, and the recursive call behaves likewise. -/
theorem addDepsStep_cycle (rec : Entity → DepMap → Option DepMap)
    (hrec : ∀ te m0, dmHasAB m0 →
      ∃ m', rec te m0 = some m' ∧ dmPres m0 m' ∧ dmHasAB m')
    (dir : Bool) (name : String) (m : DepMap) (r : Relation)
    (hr : r = depRel "A" "B" ∨ r = depRel "B" "A")
    (hname : ∃ nn, dmLookup m name = some nn) (hAB : dmHasAB m) :
    ∃ m', addDepsStep cycleG rec dir name m r = some m' ∧ dmPres m m' ∧
      dmHasAB m' := by
  obtain ⟨nn, hnn⟩ := hname
  have hfA : findTaskEntity cycleG "A" = some entA := rfl
  have hfB : findTaskEntity cycleG "B" = some taskB := rfl
  have hnA : entA.name = "A" := rfl
  have hnB : taskB.name = "B" := rfl
  have hpushD : ∀ (l : List String), ∀ n : DepNode,
      ((fun n0 : DepNode => { n0 with dependsOn := n0.dependsOn ++ l }) n).task =
        n.task ∧
      (∀ x ∈ n.dependsOn,
        x ∈ ((fun n0 : DepNode => { n0 with dependsOn := n0.dependsOn ++ l })
          n).dependsOn) ∧
      (∀ x ∈ n.dependedOnBy,
        x ∈ ((fun n0 : DepNode => { n0 with dependsOn := n0.dependsOn ++ l })
          n).dependedOnBy) :=
    fun l n => ⟨rfl, fun x hx => List.mem_append_left _ hx, fun x hx => hx⟩
  have hpushB : ∀ (l : List String), ∀ n : DepNode,
      ((fun n0 : DepNode => { n0 with dependedOnBy := n0.dependedOnBy ++ l }) n).task =
        n.task ∧
      (∀ x ∈ n.dependsOn,
        x ∈ ((fun n0 : DepNode => { n0 with dependedOnBy := n0.dependedOnBy ++ l })
          n).dependsOn) ∧
      (∀ x ∈ n.dependedOnBy,
        x ∈ ((fun n0 : DepNode => { n0 with dependedOnBy := n0.dependedOnBy ++ l })
          n).dependedOnBy) :=
    fun l n => ⟨rfl, fun x hx => hx, fun x hx => List.mem_append_left _ hx⟩
  rcases dir with _ | _ <;> rcases hr with hr | hr <;> subst hr
  · -- dependedOnBy direction, relation (A, B): active when name = B
    rcases hg : ("B" == name) with _ | _
    · exact ⟨m, by simp [addDepsStep, depRel, hg], dmPres_refl m, hAB⟩
    · have hname' : name = "B" := (beq_iff_eq.mp hg).symm
      subst hname'
      by_cases hc : "A" ∈ nn.dependedOnBy
      · exact ⟨m, by simp [addDepsStep, depRel, hnn, hfA, hnA, hc],
          dmPres_refl m, hAB⟩
      · obtain ⟨m1, hm1, hp1, hAB1⟩ := hrec entA m hAB
        obtain ⟨depNode, hdepN⟩ := hAB1.1
        have hp2 : dmPres m1 (dmUpdate m1 "B" (fun n0 =>
            { n0 with dependedOnBy := n0.dependedOnBy ++ ["A"] })) :=
          dmPres_update _ _ _ (hpushB ["A"])
        by_cases hdb : "B" ∈ depNode.dependsOn
        · refine ⟨_, ?_, dmPres_trans hp1 hp2, dmHasAB_of_pres hp2 hAB1⟩
          simp [addDepsStep, depRel, hnn, hfA, hnA, hc, hm1, hdepN, hdb]
        · have hp3 : dmPres (dmUpdate m1 "B" (fun n0 =>
              { n0 with dependedOnBy := n0.dependedOnBy ++ ["A"] }))
              (dmUpdate (dmUpdate m1 "B" (fun n0 =>
                { n0 with dependedOnBy := n0.dependedOnBy ++ ["A"] })) "A"
                (fun n0 => { n0 with dependsOn := n0.dependsOn ++ ["B"] })) :=
            dmPres_update _ _ _ (hpushD ["B"])
          refine ⟨_, ?_, dmPres_trans hp1 (dmPres_trans hp2 hp3),
            dmHasAB_of_pres hp3 (dmHasAB_of_pres hp2 hAB1)⟩
          simp [addDepsStep, depRel, hnn, hfA, hnA, hc, hm1, hdepN, hdb]
  · -- dependedOnBy direction, relation (B, A): active when name = A
    rcases hg : ("A" == name) with _ | _
    · exact ⟨m, by simp [addDepsStep, depRel, hg], dmPres_refl m, hAB⟩
    · have hname' : name = "A" := (beq_iff_eq.mp hg).symm
      subst hname'
      by_cases hc : "B" ∈ nn.dependedOnBy
      · exact ⟨m, by simp [addDepsStep, depRel, hnn, hfB, hnB, hc],
          dmPres_refl m, hAB⟩
      · obtain ⟨m1, hm1, hp1, hAB1⟩ := hrec taskB m hAB
        obtain ⟨depNode, hdepN⟩ := hAB1.2
        have hp2 : dmPres m1 (dmUpdate m1 "A" (fun n0 =>
            { n0 with dependedOnBy := n0.dependedOnBy ++ ["B"] })) :=
          dmPres_update _ _ _ (hpushB ["B"])
        by_cases hdb : "A" ∈ depNode.dependsOn
        · refine ⟨_, ?_, dmPres_trans hp1 hp2, dmHasAB_of_pres hp2 hAB1⟩
          simp [addDepsStep, depRel, hnn, hfB, hnB, hc, hm1, hdepN, hdb]
        · have hp3 : dmPres (dmUpdate m1 "A" (fun n0 =>
              { n0 with dependedOnBy := n0.dependedOnBy ++ ["B"] }))
              (dmUpdate (dmUpdate m1 "A" (fun n0 =>
                { n0 with dependedOnBy := n0.dependedOnBy ++ ["B"] })) "B"
                (fun n0 => { n0 with dependsOn := n0.dependsOn ++ ["A"] })) :=
            dmPres_update _ _ _ (hpushD ["A"])
          refine ⟨_, ?_, dmPres_trans hp1 (dmPres_trans hp2 hp3),
            dmHasAB_of_pres hp3 (dmHasAB_of_pres hp2 hAB1)⟩
          simp [addDepsStep, depRel, hnn, hfB, hnB, hc, hm1, hdepN, hdb]
  · -- dependsOn direction, relation (A, B): active when name = A
    rcases hg : ("A" == name) with _ | _
    · exact ⟨m, by simp [addDepsStep, depRel, hg], dmPres_refl m, hAB⟩
    · have hname' : name = "A" := (beq_iff_eq.mp hg).symm
      subst hname'
      by_cases hc : "B" ∈ nn.dependsOn
      · exact ⟨m, by simp [addDepsStep, depRel, hnn, hfB, hnB, hc],
          dmPres_refl m, hAB⟩
      · obtain ⟨m1, hm1, hp1, hAB1⟩ := hrec taskB m hAB
        obtain ⟨depNode, hdepN⟩ := hAB1.2
        have hp2 : dmPres m1 (dmUpdate m1 "A" (fun n0 =>
            { n0 with dependsOn := n0.dependsOn ++ ["B"] })) :=
          dmPres_update _ _ _ (hpushD ["B"])
        by_cases hdb : "A" ∈ depNode.dependedOnBy
        · refine ⟨_, ?_, dmPres_trans hp1 hp2, dmHasAB_of_pres hp2 hAB1⟩
          simp [addDepsStep, depRel, hnn, hfB, hnB, hc, hm1, hdepN, hdb]
        · have hp3 : dmPres (dmUpdate m1 "A" (fun n0 =>
              { n0 with dependsOn := n0.dependsOn ++ ["B"] }))
              (dmUpdate (dmUpdate m1 "A" (fun n0 =>
                { n0 with dependsOn := n0.dependsOn ++ ["B"] })) "B"
                (fun n0 =>
                  { n0 with dependedOnBy := n0.dependedOnBy ++ ["A"] })) :=
            dmPres_update _ _ _ (hpushB ["A"])
          refine ⟨_, ?_, dmPres_trans hp1 (dmPres_trans hp2 hp3),
            dmHasAB_of_pres hp3 (dmHasAB_of_pres hp2 hAB1)⟩
          simp [addDepsStep, depRel, hnn, hfB, hnB, hc, hm1, hdepN, hdb]
  · -- dependsOn direction, relation (B, A): active when name = B
    rcases hg : ("B" == name) with _ | _
    · exact ⟨m, by simp [addDepsStep, depRel, hg], dmPres_refl m, hAB⟩
    · have hname' : name = "B" := (beq_iff_eq.mp hg).symm
      subst hname'
      by_cases hc : "A" ∈ nn.dependsOn
      · exact ⟨m, by simp [addDepsStep, depRel, hnn, hfA, hnA, hc],
          dmPres_refl m, hAB⟩
      · obtain ⟨m1, hm1, hp1, hAB1⟩ := hrec entA m hAB
        obtain ⟨depNode, hdepN⟩ := hAB1.1
        have hp2 : dmPres m1 (dmUpdate m1 "B" (fun n0 =>
            { n0 with dependsOn := n0.dependsOn ++ ["A"] })) :=
          dmPres_update _ _ _ (hpushD ["A"])
        by_cases hdb : "B" ∈ depNode.dependedOnBy
        · refine ⟨_, ?_, dmPres_trans hp1 hp2, dmHasAB_of_pres hp2 hAB1⟩
          simp [addDepsStep, depRel, hnn, hfA, hnA, hc, hm1, hdepN, hdb]
        · have hp3 : dmPres (dmUpdate m1 "B" (fun n0 =>
              { n0 with dependsOn := n0.dependsOn ++ ["A"] }))
              (dmUpdate (dmUpdate m1 "B" (fun n0 =>
                { n0 with dependsOn := n0.dependsOn ++ ["A"] })) "A"
                (fun n0 =>
                  { n0 with dependedOnBy := n0.dependedOnBy ++ ["B"] })) :=
            dmPres_update _ _ _ (hpushB ["B"])
          refine ⟨_, ?_, dmPres_trans hp1 (dmPres_trans hp2 hp3),
            dmHasAB_of_pres hp3 (dmHasAB_of_pres hp2 hAB1)⟩
          simp [addDepsStep, depRel, hnn, hfA, hnA, hc, hm1, hdepN, hdb]

/-- addDepsInit evolves the map monotonically and leaves the frame's node
present. -/
theorem addDepsInit_props (lvl : Nat) (dir : Bool) (te : Entity)
    (m : DepMap) (hAB : dmHasAB m) :
    dmPres m (addDepsInit lvl dir te m) ∧
    dmHasAB (addDepsInit lvl dir te m) ∧
    ∃ nn, dmLookup (addDepsInit lvl dir te m) te.name = some nn := by
  rw [addDepsInit]
  by_cases hs : (dmLookup m te.name).isSome
  · rw [if_pos hs]
    obtain ⟨nn, hnn⟩ := Option.isSome_iff_exists.mp hs
    exact ⟨dmPres_refl m, hAB, nn, hnn⟩
  · rw [if_neg hs]
    have hnone : dmLookup m te.name = none := by
      rcases h : dmLookup m te.name with _ | v
      · rfl
      · rw [h] at hs; simp at hs
    refine ⟨dmPres_insert m te.name _, ?_, ?_⟩
    · exact dmHasAB_of_pres (dmPres_insert m te.name _) hAB
    · exact ⟨_, dmLookup_insert_self m te.name _ hnone⟩

/-- addDepsLevel evolves the map monotonically and leaves the frame's node
present. -/
theorem addDepsLevel_props (lvl : Nat) (dir : Bool) (te : Entity)
    (m1 : DepMap) (hAB : dmHasAB m1)
    (hname : ∃ nn, dmLookup m1 te.name = some nn) :
    dmPres m1 (addDepsLevel lvl dir te m1) ∧
    dmHasAB (addDepsLevel lvl dir te m1) ∧
    ∃ nn, dmLookup (addDepsLevel lvl dir te m1) te.name = some nn := by
  obtain ⟨nn, hnn⟩ := hname
  have heq : addDepsLevel lvl dir te m1 =
      if (dir && decide (lvl < nn.level)) = true then
        dmUpdate m1 te.name (fun n0 => { n0 with level := lvl })
      else m1 := by
    rw [addDepsLevel, hnn]
  rw [heq]
  split
  · have hp : dmPres m1 (dmUpdate m1 te.name
        (fun n0 => { n0 with level := lvl })) :=
      dmPres_update _ _ _ (fun n => ⟨rfl, fun x hx => hx, fun x hx => hx⟩)
    refine ⟨hp, dmHasAB_of_pres hp hAB, ?_⟩
    rw [dmLookup_update_self, hnn]
    exact ⟨_, rfl⟩
  · exact ⟨dmPres_refl m1, hAB, nn, hnn⟩

/-- Main preservation lemma for the cycle: from any state containing both
tasks, the expansion at any fuel, level and direction succeeds, evolves
the map monotonically and keeps both tasks present. -/
theorem addDeps_cycle (fuel : Nat) : ∀ (lvl : Nat) (dir : Bool)
    (te : Entity) (m : DepMap), dmHasAB m →
    ∃ m', addDeps cycleG fuel lvl dir te m = some m' ∧ dmPres m m' ∧
      dmHasAB m' := by
  induction fuel with
  | zero => intro lvl dir te m h; exact ⟨m, rfl, dmPres_refl m, h⟩
  | succ fuel ih =>
    intro lvl dir te m hAB
    obtain ⟨hpI, hABI, hnI⟩ := addDepsInit_props lvl dir te m hAB
    obtain ⟨hpL, hABL, hnL⟩ :=
      addDepsLevel_props lvl dir te (addDepsInit lvl dir te m) hABI hnI
    have hrec : ∀ te0 m0, dmHasAB m0 →
        ∃ m', addDeps cycleG fuel (lvl + 1) dir te0 m0 = some m' ∧
          dmPres m0 m' ∧ dmHasAB m' :=
      fun te0 m0 h0 => ih (lvl + 1) dir te0 m0 h0
    obtain ⟨m3, e3, hp3, hAB3⟩ := addDepsStep_cycle
      (addDeps cycleG fuel (lvl + 1) dir) hrec dir te.name
      (addDepsLevel lvl dir te (addDepsInit lvl dir te m))
      (depRel "A" "B") (Or.inl rfl) hnL hABL
    have hn3 : ∃ nn, dmLookup m3 te.name = some nn := by
      obtain ⟨nn, hnn⟩ := hnL
      obtain ⟨nn', hnn', _, _, _⟩ := hp3 te.name nn hnn
      exact ⟨nn', hnn'⟩
    obtain ⟨m4, e4, hp4, hAB4⟩ := addDepsStep_cycle
      (addDeps cycleG fuel (lvl + 1) dir) hrec dir te.name m3
      (depRel "B" "A") (Or.inr rfl) hn3 hAB3
    refine ⟨m4, ?_, dmPres_trans hpI (dmPres_trans hpL
      (dmPres_trans hp3 hp4)), hAB4⟩
    have hrels : cycleG.relations = [depRel "A" "B", depRel "B" "A"] := rfl
    rw [addDeps, hrels, List.foldlM_cons, e3]
    show List.foldlM
      (addDepsStep cycleG (addDeps cycleG fuel (lvl + 1) dir) dir te.name)
      m3 [depRel "B" "A"] = some m4
    rw [List.foldlM_cons, e4]
    rfl

/-- The node the top frame creates for A. -/
def nodeA0 : DepNode :=
  { task := entA, dependsOn := [], dependedOnBy := [], level := 0 }

/-- The node the level-1 frame creates for B. -/
def nodeB1 : DepNode :=
  { task := taskB, dependsOn := [], dependedOnBy := [], level := 1 }

/-- The map after the top frame inserts A. -/
def mA0 : DepMap := [("A", nodeA0)]

/-- The map after the level-1 frame inserts B. -/
def mAB : DepMap := [("A", nodeA0), ("B", nodeB1)]

/-- The second relation step of the level-1 frame on B: it recurses into A
at level 2, then records that B depends on A. -/
theorem stepB_relBA (f : Nat) :
    ∃ m', addDepsStep cycleG (addDeps cycleG (f + 1) 2 true) true "B" mAB
        (depRel "B" "A") = some m' ∧
      (∃ nB, dmLookup m' "B" = some nB ∧ nB.task = taskB ∧
        "A" ∈ nB.dependsOn) ∧
      (∃ nA, dmLookup m' "A" = some nA ∧ nA.task = entA) ∧
      dmHasAB m' := by
  obtain ⟨m2, e2, hp2, hAB2⟩ := addDeps_cycle (f + 1) 2 true entA mAB
    ⟨⟨nodeA0, rfl⟩, ⟨nodeB1, rfl⟩⟩
  obtain ⟨nA2, hnA2, htA2, _, _⟩ := hp2 "A" nodeA0 rfl
  obtain ⟨nB2, hnB2, htB2, _, _⟩ := hp2 "B" nodeB1 rfl
  have hlB : dmLookup mAB "B" = some nodeB1 := rfl
  have hfA : findTaskEntity cycleG "A" = some entA := rfl
  have hnA : entA.name = "A" := rfl
  have hdo : nodeB1.dependsOn = [] := rfl
  by_cases hdb : "B" ∈ nA2.dependedOnBy
  · refine ⟨dmUpdate m2 "B" (fun n0 =>
      { n0 with dependsOn := n0.dependsOn ++ ["A"] }), ?_, ?_, ?_, ?_⟩
    · simp [addDepsStep, depRel, hlB, hfA, hnA, hdo, e2, hnA2, hdb]
    · rw [dmLookup_update_self, hnB2]
      exact ⟨_, rfl, htB2, List.mem_append_right _ (by simp)⟩
    · rw [dmLookup_update_ne _ _ _ _ (by decide)]
      exact ⟨nA2, hnA2, htA2⟩
    · constructor
      · rw [dmLookup_update_ne _ _ _ _ (by decide)]
        exact ⟨nA2, hnA2⟩
      · rw [dmLookup_update_self, hnB2]
        exact ⟨_, rfl⟩
  · refine ⟨dmUpdate (dmUpdate m2 "B" (fun n0 =>
      { n0 with dependsOn := n0.dependsOn ++ ["A"] })) "A" (fun n0 =>
      { n0 with dependedOnBy := n0.dependedOnBy ++ ["B"] }), ?_, ?_, ?_, ?_⟩
    · simp [addDepsStep, depRel, hlB, hfA, hnA, hdo, e2, hnA2, hdb]
    · rw [dmLookup_update_ne _ _ _ _ (by decide), dmLookup_update_self, hnB2]
      exact ⟨_, rfl, htB2, List.mem_append_right _ (by simp)⟩
    · rw [dmLookup_update_self, dmLookup_update_ne _ _ _ _ (by decide), hnA2]
      exact ⟨_, rfl, htA2⟩
    · constructor
      · rw [dmLookup_update_self, dmLookup_update_ne _ _ _ _ (by decide),
          hnA2]
        exact ⟨_, rfl⟩
      · rw [dmLookup_update_ne _ _ _ _ (by decide), dmLookup_update_self,
          hnB2]
        exact ⟨_, rfl⟩

/-- The level-1 frame on B: inserting B, skipping the A-to-B relation, and
running the B-to-A step. -/
theorem addDeps_cycle_frameB (f : Nat) :
    ∃ m', addDeps cycleG (f + 2) 1 true taskB mA0 = some m' ∧
      (∃ nB, dmLookup m' "B" = some nB ∧ nB.task = taskB ∧
        "A" ∈ nB.dependsOn) ∧
      (∃ nA, dmLookup m' "A" = some nA ∧ nA.task = entA) ∧
      dmHasAB m' := by
  obtain ⟨m', e', c1, c2, c3⟩ := stepB_relBA f
  refine ⟨m', ?_, c1, c2, c3⟩
  show addDeps cycleG (f + 1 + 1) 1 true taskB mA0 = some m'
  rw [addDeps]
  show List.foldlM
    (addDepsStep cycleG (addDeps cycleG (f + 1) 2 true) true "B") mAB
    [depRel "A" "B", depRel "B" "A"] = some m'
  rw [List.foldlM_cons]
  have hskip : addDepsStep cycleG (addDeps cycleG (f + 1) 2 true) true "B"
      mAB (depRel "A" "B") = some mAB := by
    simp [addDepsStep, depRel]
  rw [hskip]
  show List.foldlM
    (addDepsStep cycleG (addDeps cycleG (f + 1) 2 true) true "B") mAB
    [depRel "B" "A"] = some m'
  rw [List.foldlM_cons, e']
  rfl

/-- The top frame on A with fuel at least 3: after the expansion both
nodes record each other in dependsOn, with their tasks intact. -/
theorem addDeps_cycle_top (f : Nat) :
    ∃ m', addDeps cycleG (f + 3) 0 true entA [] = some m' ∧
      (∃ nA, dmLookup m' "A" = some nA ∧ nA.task = entA ∧
        "B" ∈ nA.dependsOn) ∧
      (∃ nB, dmLookup m' "B" = some nB ∧ nB.task = taskB ∧
        "A" ∈ nB.dependsOn) ∧
      dmHasAB m' := by
  obtain ⟨mB, eB, cB1, cB2, cB3⟩ := addDeps_cycle_frameB f
  obtain ⟨nB', hnB', htB', hmemB'⟩ := cB1
  obtain ⟨nA', hnA', htA'⟩ := cB2
  have hlA : dmLookup mA0 "A" = some nodeA0 := rfl
  have hfB : findTaskEntity cycleG "B" = some taskB := rfl
  have hnB : taskB.name = "B" := rfl
  have hdo : nodeA0.dependsOn = [] := rfl
  have hframe : ∀ mr, addDepsStep cycleG (addDeps cycleG (f + 2) 1 true)
      true "A" mA0 (depRel "A" "B") = some mr →
      ∃ m', addDeps cycleG (f + 3) 0 true entA [] = some m' ∧ m' = mr := by
    intro mr hr
    refine ⟨mr, ?_, rfl⟩
    show addDeps cycleG (f + 2 + 1) 0 true entA [] = some mr
    rw [addDeps]
    show List.foldlM
      (addDepsStep cycleG (addDeps cycleG (f + 2) 1 true) true "A") mA0
      [depRel "A" "B", depRel "B" "A"] = some mr
    rw [List.foldlM_cons, hr]
    show List.foldlM
      (addDepsStep cycleG (addDeps cycleG (f + 2) 1 true) true "A") mr
      [depRel "B" "A"] = some mr
    rw [List.foldlM_cons]
    have hskip : addDepsStep cycleG (addDeps cycleG (f + 2) 1 true) true "A"
        mr (depRel "B" "A") = some mr := by
      simp [addDepsStep, depRel]
    rw [hskip]
    rfl
  by_cases hdb : "A" ∈ nB'.dependedOnBy
  · obtain ⟨m', hm', hmr⟩ := hframe
      (dmUpdate mB "A" (fun n0 =>
        { n0 with dependsOn := n0.dependsOn ++ ["B"] }))
      (by simp [addDepsStep, depRel, hlA, hfB, hnB, hdo, eB, hnB', hdb])
    subst hmr
    refine ⟨_, hm', ?_, ?_, ?_⟩
    · rw [dmLookup_update_self, hnA']
      exact ⟨_, rfl, htA', List.mem_append_right _ (by simp)⟩
    · rw [dmLookup_update_ne _ _ _ _ (by decide)]
      exact ⟨nB', hnB', htB', hmemB'⟩
    · constructor
      · rw [dmLookup_update_self, hnA']
        exact ⟨_, rfl⟩
      · rw [dmLookup_update_ne _ _ _ _ (by decide)]
        exact ⟨nB', hnB'⟩
  · obtain ⟨m', hm', hmr⟩ := hframe
      (dmUpdate (dmUpdate mB "A" (fun n0 =>
        { n0 with dependsOn := n0.dependsOn ++ ["B"] })) "B" (fun n0 =>
        { n0 with dependedOnBy := n0.dependedOnBy ++ ["A"] }))
      (by simp [addDepsStep, depRel, hlA, hfB, hnB, hdo, eB, hnB', hdb])
    subst hmr
    refine ⟨_, hm', ?_, ?_, ?_⟩
    · rw [dmLookup_update_ne _ _ _ _ (by decide), dmLookup_update_self, hnA']
      exact ⟨_, rfl, htA', List.mem_append_right _ (by simp)⟩
    · rw [dmLookup_update_self, dmLookup_update_ne _ _ _ _ (by decide),
        hnB']
      exact ⟨_, rfl, htB', hmemB'⟩
    · constructor
      · rw [dmLookup_update_ne _ _ _ _ (by decide), dmLookup_update_self,
          hnA']
        exact ⟨_, rfl⟩
      · rw [dmLookup_update_self, dmLookup_update_ne _ _ _ _ (by decide),
          hnB']
        exact ⟨_, rfl⟩

/-- A successful lookup exhibits its pair in the map. -/
theorem dmLookup_mem (m : DepMap) (k : String) (v : DepNode)
    (h : dmLookup m k = some v) : (k, v) ∈ m := by
  rw [dmLookup] at h
  rcases hf : m.find? (fun p => p.1 == k) with _ | pair
  · rw [hf] at h; cases h
  · rw [hf] at h
    have hp : (pair.1 == k) = true := @List.find?_some _ (fun p => p.1 == k) pair m hf
    have hmem := List.mem_of_find?_eq_some hf
    have h2 : pair.2 = v := by
      simpa using h
    have h1 : pair.1 = k := beq_iff_eq.mp hp
    have hpair : pair = (k, v) := by
      rw [← h1, ← h2]
    rw [← hpair]
    exact hmem

/-- C6: on the two-task cycle (A depends_on B, B depends_on A) the
expansion of getTaskDependencies at any depth bound of at least 2
terminates with a result (no infinite recursion, no crash), and the result
reports the two tasks as depending on each other: A's entry lists B in its
dependsOn and B's entry lists A in its dependsOn. -/
theorem getTaskDependencies_cycle_terminates (d : Nat) (hd : 2 ≤ d) :
    ∃ r, getTaskDependencies cycleG "A" d = Except.ok r ∧
      (∃ ea ∈ r.dependencies, ea.task.name = "A" ∧ "B" ∈ ea.dependsOn) ∧
      (∃ eb ∈ r.dependencies, eb.task.name = "B" ∧ "A" ∈ eb.dependsOn) := by
  obtain ⟨k, hk⟩ : ∃ k, d = k + 2 := ⟨d - 2, by omega⟩
  subst hk
  obtain ⟨mf, hmf, cA, cB, hABf⟩ := addDeps_cycle_top k
  obtain ⟨mg, hmg, hpg, hABg⟩ := addDeps_cycle (k + 3) 0 false entA mf hABf
  rw [getTaskDependencies]
  have hfind : cycleG.entities.find? (fun e =>
      e.name == "A" && e.entityType == "task") = some entA := rfl
  rw [hfind]
  have h1 : addDependencies cycleG (k + 2) entA 0 true [] = some mf := by
    show addDeps cycleG (k + 2 + 1 - 0) 0 true entA [] = some mf
    have he : k + 2 + 1 - 0 = k + 3 := by omega
    rw [he]
    exact hmf
  have h2 : addDependencies cycleG (k + 2) entA 0 false mf = some mg := by
    show addDeps cycleG (k + 2 + 1 - 0) 0 false entA mf = some mg
    have he : k + 2 + 1 - 0 = k + 3 := by omega
    rw [he]
    exact hmg
  simp only [h1, h2]
  refine ⟨_, rfl, ?_, ?_⟩
  · obtain ⟨nA, hnA, htA, hmemA⟩ := cA
    obtain ⟨nA2, hnA2, ht2, hd2, _⟩ := hpg "A" nA hnA
    refine ⟨mkDepEntry cycleG nA2, ?_, ?_, ?_⟩
    · show mkDepEntry cycleG nA2 ∈ jsSort
        (fun a b => decide (a.level ≤ b.level))
        (mg.map (fun p => mkDepEntry cycleG p.2))
      rw [mem_jsSort]
      exact List.mem_map.mpr ⟨("A", nA2), dmLookup_mem mg "A" nA2 hnA2, rfl⟩
    · show nA2.task.name = "A"
      rw [ht2, htA]
      rfl
    · exact hd2 "B" hmemA
  · obtain ⟨nB, hnB, htB, hmemB⟩ := cB
    obtain ⟨nB2, hnB2, ht2, hd2, _⟩ := hpg "B" nB hnB
    refine ⟨mkDepEntry cycleG nB2, ?_, ?_, ?_⟩
    · show mkDepEntry cycleG nB2 ∈ jsSort
        (fun a b => decide (a.level ≤ b.level))
        (mg.map (fun p => mkDepEntry cycleG p.2))
      rw [mem_jsSort]
      exact List.mem_map.mpr ⟨("B", nB2), dmLookup_mem mg "B" nB2 hnB2, rfl⟩
    · show nB2.task.name = "B"
      rw [ht2, htB]
      rfl
    · exact hd2 "A" hmemB

/-- Witness for getTaskDependencies_cycle_terminates at depth 2. -/
theorem getTaskDependencies_cycle_terminates_witness :
    2 ≤ 2 ∧ ∃ r, getTaskDependencies cycleG "A" 2 = Except.ok r ∧
      (∃ ea ∈ r.dependencies, ea.task.name = "A" ∧ "B" ∈ ea.dependsOn) ∧
      (∃ eb ∈ r.dependencies, eb.task.name = "B" ∧ "A" ∈ eb.dependsOn) :=
  ⟨by decide, getTaskDependencies_cycle_terminates 2 (by decide)⟩
